import Mathlib

/-!
# qmail: message composer and dispatcher

A shallow embedding of `mail.go` (package `qmail`): the `Message` aggregate, its two
mutators `Attach` and `InlineAttach`, the serializer `Message.bytes` and the
dispatcher `Send`.

Go values are embedded as follows.

* `string` and `[]byte` are byte sequences (`Bytes`).
* A Go function returning `(value, error)` returns a pair whose second component is
  `none` for a `nil` error.
* Everything the package reaches outside itself is explicit state (`World`): the
  unique-token source `uuid.NewUUID`, the order in which `range` walks a map, and the
  transport `smtp.SendMail` together with the log of the calls made to it.
* An `io.Reader` is the finite sequence of bytes it still delivers, followed by
  end-of-file or by a read failure (`Reader`). Reading it drains it.
-/

namespace Qmail

/-! ## Definitions -/

/-! ### Bytes, errors and collaborators -/

/-- Go `string` and `[]byte` values: finite byte sequences. -/
abbrev Bytes := List UInt8

/-- The bytes of an ASCII string literal of the source. -/
def str (s : String) : Bytes := s.toList.map (fun c => c.toNat.toUInt8)

/-- Go `error` values. `errorf msg` is the value made by `fmt.Errorf(msg)` inside this
package; `foreign code` is a failure value handed back by a collaborator (token source,
byte source, transport). Error values of different origin are different values. -/
inductive Error where
  | errorf (msg : String)
  | foreign (code : Nat)
  deriving DecidableEq, Repr

/-- The `uuid.UUID` type of `github.com/google/uuid`: an array of 16 bytes. -/
structure UUID where
  octets : List UInt8
  size : octets.length = 16
  deriving DecidableEq

/-- The digit table of `encoding/hex`. -/
def hextable : Bytes := str "0123456789abcdef"

/-- Go `hex.Encode`: two lower-case hexadecimal digits per byte. -/
def hexEncode (src : Bytes) : Bytes :=
  src.flatMap (fun v => [hextable.getD (v.toNat / 16) 0, hextable.getD (v.toNat % 16) 0])

/-- Go `uuid.UUID.String`: the 36-byte form `xxxxxxxx-xxxx-xxxx-xxxx-xxxxxxxxxxxx`. -/
def UUID.String (u : UUID) : Bytes :=
  hexEncode (u.octets.take 4) ++ [45] ++
  hexEncode ((u.octets.drop 4).take 2) ++ [45] ++
  hexEncode ((u.octets.drop 6).take 2) ++ [45] ++
  hexEncode ((u.octets.drop 8).take 2) ++ [45] ++
  hexEncode (u.octets.drop 10)

/-- The alphabet of `base64.StdEncoding`. -/
def encodeStd : Bytes :=
  str "ABCDEFGHIJKLMNOPQRSTUVWXYZabcdefghijklmnopqrstuvwxyz0123456789+/"

/-- The byte standing for a 6-bit group (`enc.encode[val & 0x3F]`). -/
def encodeStdAt (val : Nat) : UInt8 := encodeStd.getD (val % 64) 0

/-- Go `base64.StdEncoding.Encode` on a source of any length, the destination having
`EncodedLen(len(src))` bytes: each full group of three bytes becomes four alphabet bytes,
a remainder of one or two bytes is padded with `=`. Shifts and masks of the source are
written as division and remainder by powers of two. -/
def base64Encode : Bytes → Bytes
  | a :: b :: c :: rest =>
    let val := a.toNat * 65536 + b.toNat * 256 + c.toNat
    encodeStdAt (val / 262144) :: encodeStdAt (val / 4096) :: encodeStdAt (val / 64) ::
      encodeStdAt val :: base64Encode rest
  | [a, b] =>
    let val := a.toNat * 65536 + b.toNat * 256
    [encodeStdAt (val / 262144), encodeStdAt (val / 4096), encodeStdAt (val / 64), 61]
  | [a] =>
    let val := a.toNat * 65536
    [encodeStdAt (val / 262144), encodeStdAt (val / 4096), 61, 61]
  | [] => []

/-- Go `strings.Join`. -/
def Join : List Bytes → Bytes → Bytes
  | [], _ => []
  | [a], _ => a
  | a :: b :: rest, sep => a ++ sep ++ Join (b :: rest) sep

/-- An `io.Reader`: the bytes it still delivers, then end-of-file (`failure = none`) or a
read failure. -/
structure Reader where
  pending : Bytes
  failure : Option Nat
  deriving DecidableEq

/-- Go `io.ReadAll`: everything the reader delivers, and its failure if it ends in one.
The reader is left drained. -/
def ReadAll (r : Reader) : (Bytes × Option Error) × Reader :=
  ((r.pending, r.failure.map Error.foreign), { r with pending := [] })

/-- Go `smtp.Auth`: credentials, not inspected by this package. -/
structure Auth where
  tag : Nat
  deriving DecidableEq

/-- The arguments of one `smtp.SendMail` call. -/
structure SendMailCall where
  addr : Bytes
  auth : Auth
  sender : Bytes
  rcpts : List Bytes
  msg : Bytes
  deriving DecidableEq

/-- Everything outside the package. `uuidResults i` is what the `i`-th call of
`uuid.NewUUID` returns and `uuidCalls` counts the calls made; `rangeOrders i` seeds the
order of the `i`-th `range` over a map and `rangeCalls` counts them; `relay` is the
answer of the mail relay to a `smtp.SendMail` call and `sent` lists the calls made. -/
structure World where
  uuidResults : Nat → Except Nat UUID
  uuidCalls : Nat
  rangeOrders : Nat → List Nat
  rangeCalls : Nat
  relay : SendMailCall → Option Nat
  sent : List SendMailCall

/-- Go `uuid.NewUUID()`. -/
def NewUUID (w : World) : Except Nat UUID × World :=
  (w.uuidResults w.uuidCalls, { w with uuidCalls := w.uuidCalls + 1 })

/-- Go `smtp.SendMail`. -/
def SendMail (w : World) (call : SendMailCall) : Option Error × World :=
  ((w.relay call).map Error.foreign, { w with sent := w.sent ++ [call] })

/-! ### Maps and loops -/

/-- A Go `map[string]V`: `none` is the nil map, `some es` a map holding the entries `es`
(keys pairwise distinct). -/
abbrev GoMap (V : Type) := Option (List (Bytes × V))

/-- The entries of a map; a nil map has none. -/
def GoMap.entries {V : Type} : GoMap V → List (Bytes × V)
  | none => []
  | some es => es

/-- Go `len(m)`. -/
def GoMap.len {V : Type} (m : GoMap V) : Nat := m.entries.length

/-- Go `m[k] = v`: any entry under `k` is replaced. The package makes a map before it
assigns to it (assigning to a nil map panics in Go), so the nil case is never reached. -/
def GoMap.assign {V : Type} (m : GoMap V) (k : Bytes) (v : V) : GoMap V :=
  m.map (fun es => (k, v) :: es.filter (fun e => e.1 ≠ k))

/-- Go `m[k]`. -/
def GoMap.lookup {V : Type} (m : GoMap V) (k : Bytes) : Option V :=
  (m.entries.find? (fun e => e.1 = k)).map (fun e => e.2)

/-- One order of a list, chosen by a seed: each element is put into the arrangement of
the ones after it at the position its seed number picks. Every order is reached by
some seed. -/
def shuffle {α : Type} : List Nat → List α → List α
  | p :: ps, x :: xs => (shuffle ps xs).insertIdx (p % ((shuffle ps xs).length + 1)) x
  | _, xs => xs

/-- Go `for k, v := range m`: the entries of the map in the order the runtime picks. -/
def range {V : Type} (w : World) (m : GoMap V) : List (Bytes × V) × World :=
  (shuffle (w.rangeOrders w.rangeCalls) m.entries, { w with rangeCalls := w.rangeCalls + 1 })

/-- Go `for i, x := range xs { dst[c] = f(x); c++ }` on a slice `dst` and a counter `c`. -/
def fill {α : Type} (f : α → Bytes) (xs : List α) (dst : List Bytes) (c : Nat) :
    List Bytes × Nat :=
  xs.foldl (fun s x => (s.1.set s.2 (f x), s.2 + 1)) (dst, c)

/-! ### The data model of `mail.go` -/

/-- The type `Address` (mail.go 14-17). -/
structure Address where
  Email : Bytes
  Name : Bytes
  deriving DecidableEq

/-- The type `inline` (mail.go 19-22): the bytes of an inline resource and its content
identifier. -/
structure inline where
  attachment : Bytes
  uuid : Bytes
  deriving DecidableEq

/-- The type `Message` (mail.go 24-33). `Body` is `none` for a nil reader. -/
structure Message where
  From : Address
  To : List Address
  Cc : List Address
  Bcc : List Address
  Subject : Bytes
  Body : Option Reader
  attachments : GoMap Bytes
  inlines : GoMap inline
  deriving DecidableEq

/-! ### The operations of `mail.go` -/

/-- The method `Message.Attach` (mail.go 35-47). Returns the error, the message and the reader as
the call leaves them. -/
def Message.Attach (m : Message) (name : Bytes) (reader : Reader) :
    Option Error × Message × Reader :=
  let m := match m.attachments with
    | none => { m with attachments := some [] }
    | some _ => m
  match ReadAll reader with
  | ((_, some err), reader) => (some err, m, reader)
  | ((b, none), reader) =>
    (none, { m with attachments := m.attachments.assign name b }, reader)

/-- The method `Message.InlineAttach` (mail.go 49-67). Returns the identifier and the error, and the
message, the reader and the world as the call leaves them. -/
def Message.InlineAttach (m : Message) (name : Bytes) (reader : Reader) (w : World) :
    (Bytes × Option Error) × Message × Reader × World :=
  let m := match m.inlines with
    | none => { m with inlines := some [] }
    | some _ => m
  let w := (NewUUID w).2
  match NewUUID w with
  | (.error code, w) => (([], some (.foreign code)), m, reader, w)
  | (.ok v1, w) =>
    match ReadAll reader with
    | ((_, some err), reader) => (([], some err), m, reader, w)
    | ((b, none), reader) =>
      ((v1.String, none),
        { m with inlines := m.inlines.assign name { attachment := b, uuid := v1.String } },
        reader, w)

/-- The method `Message.bytes` (mail.go 69-178). Returns the bytes and the error, and the message
(its body stream read) and the world as the call leaves them. -/
def Message.bytes (m : Message) (w : World) : (Bytes × Option Error) × Message × World :=
  match NewUUID w with
  | (.error code, w) => (([], some (.foreign code)), m, w)
  | (.ok v1, w) =>
    let boundary := v1.String
    let buf : Bytes := []
    let buf :=
      if m.From.Email ≠ [] then
        let buf := buf ++ str "From:"
        let buf :=
          if m.From.Name ≠ [] then buf ++ (m.From.Name ++ str " <" ++ m.From.Email ++ str ">")
          else buf ++ m.From.Email
        buf ++ [10]
      else buf
    let to_ := (fill (fun address =>
        if address.Name ≠ [] then address.Name ++ str " <" ++ address.Email ++ str ">"
        else address.Email) m.To (List.replicate m.To.length []) 0).1
    let cc := (fill (fun address =>
        if address.Name ≠ [] then address.Name ++ str " <" ++ address.Email ++ str ">"
        else address.Email) m.Cc (List.replicate m.Cc.length []) 0).1
    let buf :=
      if to_.length > 0 then buf ++ str "To: " ++ Join to_ (str ";") ++ [10]
      else buf
    let buf :=
      if cc.length > 0 then buf ++ str "Cc: " ++ Join cc (str ";") ++ [10]
      else buf
    let buf := buf ++ str "Subject: "
    let buf := buf ++ m.Subject
    let buf := buf ++ str "\n"
    let buf := buf ++ str "MIME-Version: 1.0\n"
    let buf :=
      if m.attachments.len > 0 ∨ m.inlines.len > 0 then
        buf ++ str "Content-Type: multipart/mixed; boundary=" ++ boundary ++ str "\n" ++
          str "--" ++ boundary ++ str "\n"
      else buf
    let buf := buf ++ str "Content-Type: text/html; charset=utf-8\n"
    let (buf, body) :=
      match m.Body with
      | some r => (buf ++ r.pending, some { r with pending := [] })
      | none => (buf, none)
    let m := { m with Body := body }
    if m.attachments.len > 0 ∨ m.inlines.len > 0 then
      let (entries, w) := range w m.attachments
      let buf := entries.foldl (fun buf e =>
        buf ++ str "\n\n--" ++ boundary ++ str "\n" ++
          str "Content-Type: application/octet-stream\n" ++
          str "Content-Transfer-Encoding: base64\n" ++
          str "Content-Disposition: attachment; filename=\"" ++ e.1 ++ str "\"\n\n" ++
          base64Encode e.2 ++ str "\n--" ++ boundary) buf
      let (entries, w) := range w m.inlines
      let buf := entries.foldl (fun buf e =>
        buf ++ str "\n\n--" ++ boundary ++ str "\n" ++
          str "Content-Type: application/octet-stream\n" ++
          str "Content-Transfer-Encoding: base64\n" ++
          str "Content-ID: <" ++ e.2.uuid ++ str ">\n" ++
          str "Content-Disposition: inline; filename=\"" ++ e.1 ++ str "\"\n\n" ++
          base64Encode e.2.attachment ++ str "\n--" ++ boundary) buf
      let buf := buf ++ str "--"
      ((buf, none), m, w)
    else ((buf, none), m, w)

/-- The function `Send` (mail.go 182-212). Returns the error, and the message (whose body stream is
shared with the caller) and the world as the call leaves them. -/
def Send (addr : Bytes) (auth : Auth) (m : Message) (w : World) :
    Option Error × Message × World :=
  if m.From.Email = [] then (some (.errorf "from is not set"), m, w)
  else
    let receivers : List Bytes := List.replicate (m.To.length + m.Cc.length + m.Bcc.length) []
    let c := 0
    let (receivers, c) := fill (fun address => address.Email) m.To receivers c
    let (receivers, c) := fill (fun address => address.Email) m.Cc receivers c
    let (receivers, c) := fill (fun address => address.Email) m.Bcc receivers c
    if c = 0 then (some (.errorf "zero receivers"), m, w)
    else
      match m.bytes w with
      | ((_, some err), m, w) => (some err, m, w)
      | ((b, none), m, w) =>
        let (err, w) := SendMail w
          { addr := addr, auth := auth, sender := m.From.Email, rcpts := receivers, msg := b }
        (err, m, w)

/-! ### The layout and the effects as the specification words them -/

/-- An address as a header value: `name <email>` when there is a name, else the bare
email. -/
def Spec.render (a : Address) : Bytes :=
  if a.Name = [] then a.Email else a.Name ++ str " <" ++ a.Email ++ str ">"

/-- The `From:` line: present exactly when the sender has an email. -/
def Spec.fromLine (m : Message) : Bytes :=
  if m.From.Email = [] then [] else str "From:" ++ Spec.render m.From ++ str "\n"

/-- A recipient header line: absent for an empty list, else the label and the renderings
joined by `;`. -/
def Spec.listLine (label : Bytes) (as : List Address) : Bytes :=
  if as = [] then [] else label ++ List.intercalate (str ";") (as.map Spec.render) ++ str "\n"

/-- The header block `H`: From, To, Cc, Subject, MIME-Version. -/
def Spec.headerBlock (m : Message) : Bytes :=
  Spec.fromLine m ++ Spec.listLine (str "To: ") m.To ++ Spec.listLine (str "Cc: ") m.Cc ++
    str "Subject: " ++ m.Subject ++ str "\n" ++ str "MIME-Version: 1.0\n"

/-- The part of one attachment entry under boundary token `B`. -/
def Spec.attachmentPart (B : Bytes) (e : Bytes × Bytes) : Bytes :=
  str "\n\n--" ++ B ++
    str "\nContent-Type: application/octet-stream\nContent-Transfer-Encoding: base64\nContent-Disposition: attachment; filename=\"" ++
    e.1 ++ str "\"\n\n" ++ base64Encode e.2 ++ str "\n--" ++ B

/-- The part of one inline entry under boundary token `B`. -/
def Spec.inlinePart (B : Bytes) (e : Bytes × inline) : Bytes :=
  str "\n\n--" ++ B ++
    str "\nContent-Type: application/octet-stream\nContent-Transfer-Encoding: base64\nContent-ID: <" ++
    e.2.uuid ++ str ">\nContent-Disposition: inline; filename=\"" ++
    e.1 ++ str "\"\n\n" ++ base64Encode e.2.attachment ++ str "\n--" ++ B

/-- The bytes of the body stream: what it still delivers, nothing when there is none. -/
def Spec.body (m : Message) : Bytes :=
  match m.Body with
  | some r => r.pending
  | none => []

/-- The order in which a `Message.bytes` call started in world `w` walks the
attachments. -/
def attachmentOrder (m : Message) (w : World) : List (Bytes × Bytes) :=
  shuffle (w.rangeOrders w.rangeCalls) m.attachments.entries

/-- The order in which a `Message.bytes` call started in world `w` walks the inlines. -/
def inlineOrder (m : Message) (w : World) : List (Bytes × inline) :=
  shuffle (w.rangeOrders (w.rangeCalls + 1)) m.inlines.entries

/-- The serialized message of the spec for boundary token `B`, the attachments listed as
`oa` and the inlines as `oi`: multipart framing exactly when there is an entry. -/
def Spec.output (m : Message) (B : Bytes) (oa : List (Bytes × Bytes))
    (oi : List (Bytes × inline)) : Bytes :=
  if m.attachments.len > 0 ∨ m.inlines.len > 0 then
    Spec.headerBlock m ++ str "Content-Type: multipart/mixed; boundary=" ++ B ++
      str "\n--" ++ B ++ str "\n" ++ str "Content-Type: text/html; charset=utf-8\n" ++
      Spec.body m ++ (oa.map (Spec.attachmentPart B)).flatten ++
      (oi.map (Spec.inlinePart B)).flatten ++ str "--"
  else
    Spec.headerBlock m ++ str "Content-Type: text/html; charset=utf-8\n" ++ Spec.body m

/-- The message after its body stream has been read to the end. -/
def Spec.drained (m : Message) : Message :=
  { m with Body := m.Body.map (fun r => { r with pending := [] }) }

/-- The world after a successful `Message.bytes` call: one token drawn, and both maps
walked when the message is multipart. -/
def Spec.afterBytes (m : Message) (w : World) : World :=
  { w with
    uuidCalls := w.uuidCalls + 1
    rangeCalls := if m.attachments.len > 0 ∨ m.inlines.len > 0 then w.rangeCalls + 1 + 1
      else w.rangeCalls }

/-- The envelope-recipient list of the spec: the emails of To, then Cc, then Bcc. -/
def Spec.recipients (m : Message) : List Bytes :=
  m.To.map (fun a => a.Email) ++ m.Cc.map (fun a => a.Email) ++ m.Bcc.map (fun a => a.Email)

/-- The transport call of the spec: the given address and credentials, the sender's
email, the envelope recipients and the serialized bytes. -/
def Spec.call (addr : Bytes) (auth : Auth) (m : Message) (b : Bytes) : SendMailCall :=
  { addr := addr, auth := auth, sender := m.From.Email, rcpts := Spec.recipients m, msg := b }

/-- The message with the inline entry `e` stored under `name`, replacing any entry under
that name. -/
def Spec.withInline (m : Message) (name : Bytes) (e : inline) : Message :=
  { m with inlines := some ((name, e) :: m.inlines.entries.filter (fun x => x.1 ≠ name)) }

/-! ### Lines and boundary markers -/

/-- The lines of a text: its pieces between line-feeds. -/
def lines : Bytes → List Bytes
  | [] => [[]]
  | c :: cs =>
    if c = 10 then [] :: lines cs
    else match lines cs with
      | [] => [[c]]
      | l :: ls => (c :: l) :: ls

/-- The state of a reader of a text who watches for a line starting with two dashes: at
the start of a line, after a line's single leading dash, further inside a line, or past
the start of some line that begins with two dashes. -/
inductive Scan where
  | start | dash | text | marked
  deriving DecidableEq

/-- One byte read. -/
def Scan.step : Scan → UInt8 → Scan
  | .marked, _ => .marked
  | .start, c => if c = 10 then .start else if c = 45 then .dash else .text
  | .dash, c => if c = 10 then .start else if c = 45 then .marked else .text
  | .text, c => if c = 10 then .start else .text

/-- The state after reading a text. -/
def scan (s : Scan) (t : Bytes) : Scan := t.foldl Scan.step s

/-- A text that does not contain two dashes in a row. -/
def dashFree (t : Bytes) : Prop := ¬ str "--" <:+: t

/-- Whether a text has two dashes in a row can be computed. -/
instance (t : Bytes) : Decidable (dashFree t) := by
  unfold dashFree; infer_instance

/-- The message with the bytes `v` stored as attachment under `name`, replacing any entry
under that name. -/
def Spec.withAttachment (m : Message) (name : Bytes) (v : Bytes) : Message :=
  { m with attachments := some ((name, v) :: m.attachments.entries.filter (fun x => x.1 ≠ name)) }

/-! ### Occurrences of a text -/

/-- The number of places of `t` at which the text `p` starts. -/
def occurrences (p : Bytes) : Bytes → Nat
  | [] => if p = [] then 1 else 0
  | c :: cs => (if p <+: c :: cs then 1 else 0) + occurrences p cs

/-! ### Base64 decoding -/

/-- The 6-bit group a byte of the base64 alphabet stands for; `none` for a byte outside
the alphabet. -/
def decodeStdAt (c : UInt8) : Option Nat :=
  if encodeStd.indexOf c < 64 then some (encodeStd.indexOf c) else none

/-- Standard padded base64 decoding of a text without line breaks, as Go
`base64.StdEncoding.Decode` performs it: four alphabet bytes give three bytes, a last
group ending in one or two `=` gives two bytes or one; `none` for a malformed text. -/
def base64Decode : Bytes → Option Bytes
  | c1 :: c2 :: c3 :: c4 :: rest =>
    if c3 = 61 ∧ c4 = 61 ∧ rest = [] then
      match decodeStdAt c1, decodeStdAt c2 with
      | some s1, some s2 => some [UInt8.ofNat ((s1 * 262144 + s2 * 4096) / 65536)]
      | _, _ => none
    else if c4 = 61 ∧ rest = [] then
      match decodeStdAt c1, decodeStdAt c2, decodeStdAt c3 with
      | some s1, some s2, some s3 =>
        some [UInt8.ofNat ((s1 * 262144 + s2 * 4096 + s3 * 64) / 65536),
          UInt8.ofNat ((s1 * 262144 + s2 * 4096 + s3 * 64) / 256 % 256)]
      | _, _, _ => none
    else
      match decodeStdAt c1, decodeStdAt c2, decodeStdAt c3, decodeStdAt c4, base64Decode rest with
      | some s1, some s2, some s3, some s4, some tail =>
        some (UInt8.ofNat ((s1 * 262144 + s2 * 4096 + s3 * 64 + s4) / 65536) ::
          UInt8.ofNat ((s1 * 262144 + s2 * 4096 + s3 * 64 + s4) / 256 % 256) ::
          UInt8.ofNat ((s1 * 262144 + s2 * 4096 + s3 * 64 + s4) % 256) :: tail)
      | _, _, _, _, _ => none
  | [] => some []
  | _ => none

/-! ### Sample inputs -/

/-- A token of the token source. -/
def sampleUUID : UUID :=
  ⟨[0x6b, 0xa7, 0xb8, 0x10, 0x9d, 0xad, 0x11, 0xd1, 0x80, 0xb4, 0x00, 0xc0, 0x4f, 0xd4, 0x30, 0xc8],
    rfl⟩

/-- A world whose token source always answers `sampleUUID`, whose maps are walked in the
order they are stored and whose relay accepts every message; nothing has been sent. -/
def sampleWorld : World :=
  { uuidResults := fun _ => .ok sampleUUID, uuidCalls := 0, rangeOrders := fun _ => [],
    rangeCalls := 0, relay := fun _ => none, sent := [] }

/-- A message from `A <a@x>` to `b@x` with body `<p>`, and no attachment or inline. -/
def plainMessage : Message :=
  { From := { Email := str "a@x", Name := str "A" }, To := [{ Email := str "b@x", Name := [] }],
    Cc := [], Bcc := [], Subject := str "s", Body := some { pending := str "<p>", failure := none },
    attachments := none, inlines := some [] }

/-- The message `plainMessage` with the attachment `a.txt` holding `hi` and the inline
`logo.png`. -/
def richMessage : Message :=
  { plainMessage with
    attachments := some [(str "a.txt", str "hi")]
    inlines := some [(str "logo.png", { attachment := str "png", uuid := str "id-1" })] }

/-- A message whose only recipient entry has an empty email. -/
def blankRecipientMessage : Message :=
  { plainMessage with To := [{ Email := [], Name := [] }] }

/-- The message `plainMessage` with the single attachment `a.txt` holding `hi`. -/
def attachedMessage : Message :=
  { plainMessage with attachments := some [(str "a.txt", str "hi")] }

/-- A byte source that delivers `png` and ends. -/
def logoReader : Reader := { pending := str "png", failure := none }

/-- A message with only the sender `A <a@x>` and the recipient `b@x`. -/
def minimalMessage : Message :=
  { From := { Email := str "a@x", Name := str "A" }, To := [{ Email := str "b@x", Name := [] }],
    Cc := [], Bcc := [], Subject := [], Body := none, attachments := none, inlines := none }

/-- The message `minimalMessage` with a recipient email that holds a line-feed followed by
`Content-Type: text/plain`. -/
def echoMessage : Message :=
  { minimalMessage with To := [{ Email := str "b@x\nContent-Type: text/plain", Name := [] }] }

/-- A second token of the token source. -/
def sampleUUID2 : UUID :=
  ⟨[0x6b, 0xa7, 0xb8, 0x11, 0x9d, 0xad, 0x11, 0xd1, 0x80, 0xb4, 0x00, 0xc0, 0x4f, 0xd4, 0x30, 0xc8],
    rfl⟩

/-- The world `sampleWorld` with a token source that answers `sampleUUID` first and
`sampleUUID2` from then on. -/
def twoTokenWorld : World :=
  { sampleWorld with uuidResults := fun i => if i = 0 then .ok sampleUUID else .ok sampleUUID2 }

/-- A byte source that delivers `hi` and ends. -/
def hiReader : Reader := { pending := str "hi", failure := none }

/-- A byte source that delivers `pn` and then fails with code 5. -/
def brokenReader : Reader := { pending := str "pn", failure := some 5 }

/-- The message `minimalMessage` with a subject that holds a line-feed. -/
def injectedSubject : Message :=
  { minimalMessage with Subject := str "hi\nX-Injected: 1" }

/-- The message `minimalMessage` with a sender name that holds line-feeds. -/
def injectedName : Message :=
  { minimalMessage with From := { Email := str "a@x", Name := str "A\nX-Injected: 1\nX-From: A" } }

/-- The message `minimalMessage` with an attachment whose file name holds line-feeds. -/
def injectedFilename : Message :=
  { minimalMessage with attachments := some [(str "a\"\nX-Injected: 1\nX-Name: \"b", str "hi")] }

/-- The message `plainMessage` without recipients. -/
def unaddressedMessage : Message := { plainMessage with To := [] }

/-! ## Theorems -/

/-! ### Loops, joins and ranges -/

/-- The line-feed literal. -/
theorem str_lf : str "\n" = [10] := rfl

/-- Literals concatenate. -/
theorem str_append (s t : String) : str (s ++ t) = str s ++ str t := by
  simp [str]

/-- A counting loop over `xs` overwrites the cells `c .. c + len(xs) - 1` of the slice
with the images of `xs`, in order, and advances the counter by `len(xs)`. -/
theorem fill_eq {α : Type} (f : α → Bytes) (xs : List α) :
    ∀ (dst : List Bytes) (c : Nat), c + xs.length ≤ dst.length →
      fill f xs dst c = (dst.take c ++ xs.map f ++ dst.drop (c + xs.length), c + xs.length) := by
  induction xs with
  | nil => intro dst c _; simp [fill]
  | cons x xs ih =>
    intro dst c h
    have h1 : c + 1 + xs.length ≤ (dst.set c (f x)).length := by
      simp only [List.length_cons, List.length_set] at h ⊢; omega
    have h2 := ih (dst.set c (f x)) (c + 1) h1
    simp only [fill, List.foldl_cons] at h2 ⊢
    rw [h2]
    have hc : c < dst.length := by simp only [List.length_cons] at h; omega
    have e1 : (dst.set c (f x)).take (c + 1) = dst.take c ++ [f x] := by
      rw [List.take_succ, List.set_take, List.set_eq_of_length_le (by simp)]
      simp [hc]
    have e2 : (dst.set c (f x)).drop (c + 1 + xs.length) = dst.drop (c + (xs.length + 1)) := by
      rw [List.drop_set_of_lt]
      · congr 1; omega
      · omega
    rw [e1, e2]
    simp [Nat.add_assoc, Nat.add_comm 1]

/-- A counting loop from 0 over a fresh slice of `len(xs)` cells yields the images of
`xs`. -/
theorem fill_fresh {α : Type} (f : α → Bytes) (xs : List α) :
    fill f xs (List.replicate xs.length []) 0 = (xs.map f, xs.length) := by
  rw [fill_eq f xs _ 0 (by simp)]
  simp

/-- Go `strings.Join` puts the separator between consecutive elements. -/
theorem Join_eq_intercalate (sep : Bytes) :
    ∀ xs : List Bytes, Join xs sep = List.intercalate sep xs
  | [] => by simp [Join, List.intercalate]
  | [a] => by simp [Join, List.intercalate]
  | a :: b :: rest => by
    have ih := Join_eq_intercalate sep (b :: rest)
    simp only [Join, ih, List.intercalate, List.intersperse, List.flatten_cons, List.append_assoc]

/-- A loop that appends one piece per element appends the pieces in order. -/
theorem foldl_write {α : Type} (g : α → Bytes) (es : List α) :
    ∀ buf : Bytes, es.foldl (fun buf e => buf ++ g e) buf = buf ++ (es.map g).flatten := by
  induction es with
  | nil => intro buf; simp
  | cons e es ih => intro buf; simp [ih]

/-- A `range` lists every entry exactly once. -/
theorem shuffle_perm {α : Type} : ∀ (ps : List Nat) (xs : List α), (shuffle ps xs).Perm xs
  | [], xs => by cases xs <;> simp [shuffle]
  | _ :: _, [] => by simp [shuffle]
  | p :: ps, x :: xs => by
    have ih := shuffle_perm ps xs
    simp only [shuffle]
    refine (List.perm_insertIdx x _ ?_).trans (ih.cons x)
    exact Nat.le_of_lt_succ (Nat.mod_lt _ (Nat.succ_pos _))

/-! ### Closed forms of `Message.bytes` and `Send` -/

/-- The From block of `Message.bytes` writes the From line of the spec. -/
theorem bytes_header (m : Message) :
    (if m.From.Email ≠ [] then
        (if m.From.Name ≠ [] then
            ([] ++ str "From:") ++ (m.From.Name ++ str " <" ++ m.From.Email ++ str ">")
          else ([] ++ str "From:") ++ m.From.Email) ++ [10]
      else ([] : Bytes)) = Spec.fromLine m := by
  unfold Spec.fromLine Spec.render
  by_cases h1 : m.From.Email = [] <;> by_cases h2 : m.From.Name = [] <;>
    simp [h1, h2, str_lf]

/-- A recipient block of `Message.bytes` writes the recipient line of the spec. -/
theorem bytes_listLine (label : Bytes) (as : List Address) (buf : Bytes) :
    (if (fill (fun address =>
          if address.Name ≠ [] then address.Name ++ str " <" ++ address.Email ++ str ">"
          else address.Email) as (List.replicate as.length []) 0).1.length > 0
      then buf ++ label ++ Join (fill (fun address =>
          if address.Name ≠ [] then address.Name ++ str " <" ++ address.Email ++ str ">"
          else address.Email) as (List.replicate as.length []) 0).1 (str ";") ++ [10]
      else buf) = buf ++ Spec.listLine label as := by
  rw [fill_fresh, Join_eq_intercalate]
  unfold Spec.listLine
  have hr : (fun address : Address =>
      if address.Name ≠ [] then address.Name ++ str " <" ++ address.Email ++ str ">"
      else address.Email) = Spec.render := by
    funext a
    unfold Spec.render
    by_cases h : a.Name = [] <;> simp [h]
  rw [hr]
  cases as with
  | nil => simp
  | cons a as => simp [str_lf]

/-- A `Message.bytes` call whose token draw fails returns that failure and no bytes. -/
theorem bytes_fail (m : Message) (w : World) (code : Nat)
    (htok : w.uuidResults w.uuidCalls = .error code) :
    m.bytes w = (([], some (.foreign code)), m, { w with uuidCalls := w.uuidCalls + 1 }) := by
  simp only [Message.bytes, NewUUID, htok]

/-- A `Message.bytes` call whose token draw answers `v1`: what it writes, and the message
and the world it leaves. -/
theorem bytes_ok (m : Message) (w : World) (v1 : UUID)
    (htok : w.uuidResults w.uuidCalls = .ok v1) :
    m.bytes w =
      ((Spec.output m v1.String (attachmentOrder m w) (inlineOrder m w), none),
        Spec.drained m, Spec.afterBytes m w) := by
  have hlit1 : str "\n--" = str "\n" ++ str "--" := rfl
  have hlit2 : ∀ B : Bytes, Spec.attachmentPart B = fun e =>
      str "\n\n--" ++ (B ++ (str "\n" ++ (str "Content-Type: application/octet-stream\n" ++
        (str "Content-Transfer-Encoding: base64\n" ++
        (str "Content-Disposition: attachment; filename=\"" ++ (e.1 ++ (str "\"\n\n" ++
        (base64Encode e.2 ++ (str "\n" ++ (str "--" ++ B)))))))))) := by
    intro B; funext e
    simp only [Spec.attachmentPart, List.append_assoc]
    rfl
  have hlit3 : ∀ B : Bytes, Spec.inlinePart B = fun e =>
      str "\n\n--" ++ (B ++ (str "\n" ++ (str "Content-Type: application/octet-stream\n" ++
        (str "Content-Transfer-Encoding: base64\n" ++
        (str "Content-ID: <" ++ (e.2.uuid ++ (str ">\n" ++
        (str "Content-Disposition: inline; filename=\"" ++ (e.1 ++ (str "\"\n\n" ++
        (base64Encode e.2.attachment ++ (str "\n" ++ (str "--" ++ B))))))))))))) := by
    intro B; funext e
    simp only [Spec.inlinePart, List.append_assoc]
    rfl
  simp only [Message.bytes, NewUUID, htok, bytes_header, bytes_listLine, range]
  by_cases hm : m.attachments.len > 0 ∨ m.inlines.len > 0
  · simp only [if_pos hm, Spec.output, Spec.drained, Spec.afterBytes]
    cases hb : m.Body <;>
      simp only [Spec.headerBlock, Spec.body, hb, attachmentOrder, inlineOrder, hlit1, hlit2,
        hlit3, List.append_assoc, List.append_nil, foldl_write, Option.map]
  · simp only [if_neg hm, Spec.output, Spec.drained, Spec.afterBytes]
    cases hb : m.Body <;>
      simp only [Spec.headerBlock, Spec.body, hb, List.append_assoc, List.append_nil, Option.map]

/-- The three loops of `Send` fill the receivers slice with the emails of To, Cc and
Bcc, in this order, and count them. -/
theorem receivers_eq (tos ccs bccs : List Address) :
    fill (fun address => address.Email) bccs
      (fill (fun address => address.Email) ccs
        (fill (fun address => address.Email) tos
          (List.replicate (tos.length + ccs.length + bccs.length) []) 0).1
        (fill (fun address => address.Email) tos
          (List.replicate (tos.length + ccs.length + bccs.length) []) 0).2).1
      (fill (fun address => address.Email) ccs
        (fill (fun address => address.Email) tos
          (List.replicate (tos.length + ccs.length + bccs.length) []) 0).1
        (fill (fun address => address.Email) tos
          (List.replicate (tos.length + ccs.length + bccs.length) []) 0).2).2 =
    (tos.map (fun a => a.Email) ++ ccs.map (fun a => a.Email) ++ bccs.map (fun a => a.Email),
      tos.length + ccs.length + bccs.length) := by
  rw [fill_eq _ tos _ 0 (by simp; omega)]
  simp only [List.take_zero, List.nil_append, Nat.zero_add, List.drop_replicate]
  rw [fill_eq _ ccs _ _ (by simp; omega)]
  simp only []
  rw [fill_eq _ bccs _ _ (by simp; omega)]
  have e1 : tos.length + ccs.length + bccs.length - tos.length = ccs.length + bccs.length := by
    omega
  have e2 : (List.map (fun a : Address => a.Email) tos).length = tos.length := by simp
  have e3 : (List.map (fun a : Address => a.Email) ccs).length = ccs.length := by simp
  simp [e1, List.take_append_eq_append_take, List.drop_append_eq_append_drop,
    List.take_of_length_le, List.drop_of_length_le]
  omega

/-- The function `Send` past its first check: the recipient count decides, then the serializer, then
the transport. -/
theorem Send_eq (addr : Bytes) (auth : Auth) (m : Message) (w : World)
    (hfrom : m.From.Email ≠ []) :
    Send addr auth m w =
      if m.To.length + m.Cc.length + m.Bcc.length = 0 then
        (some (.errorf "zero receivers"), m, w)
      else
        match m.bytes w with
        | ((_, some err), m1, w1) => (some err, m1, w1)
        | ((b, none), m1, w1) =>
          ((SendMail w1 (Spec.call addr auth m b)).1, m1,
            (SendMail w1 (Spec.call addr auth m b)).2) := by
  unfold Send
  rw [if_neg hfrom]
  simp only [receivers_eq]
  by_cases hc : m.To.length + m.Cc.length + m.Bcc.length = 0
  · simp only [hc, if_true]
  · simp only [hc, if_false]
    cases htok : w.uuidResults w.uuidCalls with
    | error code => simp only [bytes_fail m w code htok]
    | ok v1 => simp only [bytes_ok m w v1 htok, Spec.call, Spec.recipients, Spec.drained]

/-- The spec's output begins with the header block. -/
theorem output_header (m : Message) (B : Bytes) (oa : List (Bytes × Bytes))
    (oi : List (Bytes × inline)) : ∃ rest, Spec.output m B oa oi = Spec.headerBlock m ++ rest := by
  unfold Spec.output
  split
  · exact ⟨_, by simp only [List.append_assoc]; rfl⟩
  · exact ⟨_, by simp only [List.append_assoc]; rfl⟩

/-- The function `Send` on a message whose sender has no email. -/
theorem missing_sender_eq (addr : Bytes) (auth : Auth) (m : Message) (w : World)
    (hfrom : m.From.Email = []) :
    Send addr auth m w = (some (.errorf "from is not set"), m, w) := by
  unfold Send
  rw [if_pos hfrom]

/-! ### Serialization: layout (C1-C4) -/

/-- C1. Multipart layout: when the attachments and inlines are not both empty and the token
source answers with a token whose text is `B`, `Message.bytes` returns exactly the header
block, the multipart header and opening marker for `B`, the text/html header, the body,
one part per attachment entry over an ordering listing each entry once, then one part per
inline entry over such an ordering, and the closing `--`. -/
theorem multipart_layout (m : Message) (w : World) (v1 : UUID)
    (htok : w.uuidResults w.uuidCalls = .ok v1)
    (hne : ¬ (m.attachments.len = 0 ∧ m.inlines.len = 0)) :
    ∃ (oa : List (Bytes × Bytes)) (oi : List (Bytes × inline)),
      oa.Perm m.attachments.entries ∧ oi.Perm m.inlines.entries ∧
      (m.bytes w).1 =
        (Spec.headerBlock m ++ str "Content-Type: multipart/mixed; boundary=" ++ v1.String ++
          str "\n--" ++ v1.String ++ str "\n" ++ str "Content-Type: text/html; charset=utf-8\n" ++
          Spec.body m ++ (oa.map (Spec.attachmentPart v1.String)).flatten ++
          (oi.map (Spec.inlinePart v1.String)).flatten ++ str "--", none) := by
  refine ⟨attachmentOrder m w, inlineOrder m w, shuffle_perm _ _, shuffle_perm _ _, ?_⟩
  have hm : m.attachments.len > 0 ∨ m.inlines.len > 0 := by omega
  rw [bytes_ok m w v1 htok]
  simp only [Spec.output, if_pos hm]

/-- The multipart layout at `richMessage` in `sampleWorld`. -/
theorem multipart_layout_witness :
    sampleWorld.uuidResults sampleWorld.uuidCalls = .ok sampleUUID ∧
    ¬ (richMessage.attachments.len = 0 ∧ richMessage.inlines.len = 0) ∧
    ∃ (oa : List (Bytes × Bytes)) (oi : List (Bytes × inline)),
      oa.Perm richMessage.attachments.entries ∧ oi.Perm richMessage.inlines.entries ∧
      (richMessage.bytes sampleWorld).1 =
        (Spec.headerBlock richMessage ++ str "Content-Type: multipart/mixed; boundary=" ++
          sampleUUID.String ++ str "\n--" ++ sampleUUID.String ++ str "\n" ++
          str "Content-Type: text/html; charset=utf-8\n" ++ Spec.body richMessage ++
          (oa.map (Spec.attachmentPart sampleUUID.String)).flatten ++
          (oi.map (Spec.inlinePart sampleUUID.String)).flatten ++ str "--", none) :=
  ⟨rfl, by decide, multipart_layout richMessage sampleWorld sampleUUID rfl (by decide)⟩

/-- C2. Header block: whenever the token source answers, the output of `Message.bytes`
begins with the From line (present exactly when the sender has an email), the To line and
the Cc line (each present exactly when its list is non-empty, the renderings joined by
`;`), the Subject line and `MIME-Version: 1.0`. -/
theorem header_block (m : Message) (w : World) (v1 : UUID)
    (htok : w.uuidResults w.uuidCalls = .ok v1) :
    (Spec.fromLine m ++ Spec.listLine (str "To: ") m.To ++ Spec.listLine (str "Cc: ") m.Cc ++
      str "Subject: " ++ m.Subject ++ str "\n" ++ str "MIME-Version: 1.0\n") <+: (m.bytes w).1.1 := by
  rw [bytes_ok m w v1 htok]
  obtain ⟨rest, h⟩ := output_header m v1.String (attachmentOrder m w) (inlineOrder m w)
  exact ⟨rest, h.symm⟩

/-- The header block at `richMessage` in `sampleWorld`. -/
theorem header_block_witness :
    sampleWorld.uuidResults sampleWorld.uuidCalls = .ok sampleUUID ∧
    (Spec.fromLine richMessage ++ Spec.listLine (str "To: ") richMessage.To ++
      Spec.listLine (str "Cc: ") richMessage.Cc ++ str "Subject: " ++ richMessage.Subject ++
      str "\n" ++ str "MIME-Version: 1.0\n") <+: (richMessage.bytes sampleWorld).1.1 :=
  ⟨rfl, header_block richMessage sampleWorld sampleUUID rfl⟩

/-- C3. Single-part degradation: when both maps have no entry (nil or empty),
`Message.bytes` returns exactly the header block, the text/html header and the bytes of
the body stream, and this is the same whatever token the token source answers with. -/
theorem single_part (m : Message) (w : World) (v1 : UUID)
    (htok : w.uuidResults w.uuidCalls = .ok v1)
    (hnone : m.attachments.len = 0 ∧ m.inlines.len = 0) :
    (m.bytes w).1 =
        (Spec.headerBlock m ++ str "Content-Type: text/html; charset=utf-8\n" ++ Spec.body m,
          none) ∧
      ∀ (w2 : World) (v2 : UUID), w2.uuidResults w2.uuidCalls = .ok v2 →
        (m.bytes w2).1 = (m.bytes w).1 := by
  have hm : ¬ (m.attachments.len > 0 ∨ m.inlines.len > 0) := by omega
  refine ⟨?_, fun w2 v2 h2 => ?_⟩
  · rw [bytes_ok m w v1 htok]
    simp only [Spec.output, if_neg hm]
  · rw [bytes_ok m w v1 htok, bytes_ok m w2 v2 h2]
    simp only [Spec.output, if_neg hm]

/-- The single-part output at `plainMessage` in `sampleWorld`. -/
theorem single_part_witness :
    sampleWorld.uuidResults sampleWorld.uuidCalls = .ok sampleUUID ∧
    (plainMessage.attachments.len = 0 ∧ plainMessage.inlines.len = 0) ∧
    ((plainMessage.bytes sampleWorld).1 =
        (Spec.headerBlock plainMessage ++ str "Content-Type: text/html; charset=utf-8\n" ++
          Spec.body plainMessage, none) ∧
      ∀ (w2 : World) (v2 : UUID), w2.uuidResults w2.uuidCalls = .ok v2 →
        (plainMessage.bytes w2).1 = (plainMessage.bytes sampleWorld).1) :=
  ⟨rfl, by decide, single_part plainMessage sampleWorld sampleUUID rfl (by decide)⟩

/-- C4. Bcc is never serialized: two messages that differ only in their Bcc list give, in
the same world (same token, same iteration orders), the same result of `Message.bytes`. -/
theorem bcc_not_serialized (m : Message) (bcc : List Address) (w : World) :
    ({ m with Bcc := bcc }.bytes w).1 = (m.bytes w).1 := by
  cases htok : w.uuidResults w.uuidCalls with
  | error code => rw [bytes_fail _ w code htok, bytes_fail _ w code htok]
  | ok v1 => rw [bytes_ok _ w v1 htok, bytes_ok _ w v1 htok]; rfl

/-! ### Dispatch (C5-C8) -/

/-- C5. Envelope construction: for a message that passes validation (the sender has an
email, there is a recipient entry) and whose serialization succeeds, `Send` makes exactly
one transport call, with the given address and credentials, the sender's email, the
emails of To, Cc and Bcc in this order (as many as the three lists have entries) and the
bytes `Message.bytes` returned; the result of `Send` is the result of that call. -/
theorem envelope_construction (addr : Bytes) (auth : Auth) (m : Message) (w : World)
    (hfrom : m.From.Email ≠ [])
    (hrcpt : m.To.length + m.Cc.length + m.Bcc.length ≠ 0)
    (hser : (m.bytes w).1.2 = none) :
    (Send addr auth m w).2.2.sent = w.sent ++
        [{ addr := addr, auth := auth, sender := m.From.Email,
           rcpts := m.To.map (fun a => a.Email) ++ m.Cc.map (fun a => a.Email) ++
             m.Bcc.map (fun a => a.Email),
           msg := (m.bytes w).1.1 }] ∧
      (m.To.map (fun a => a.Email) ++ m.Cc.map (fun a => a.Email) ++
        m.Bcc.map (fun a => a.Email)).length = m.To.length + m.Cc.length + m.Bcc.length ∧
      (Send addr auth m w).1 =
        (SendMail (m.bytes w).2.2 (Spec.call addr auth m (m.bytes w).1.1)).1 ∧
      (Send addr auth m w).2.2 =
        (SendMail (m.bytes w).2.2 (Spec.call addr auth m (m.bytes w).1.1)).2 := by
  rw [Send_eq addr auth m w hfrom, if_neg hrcpt]
  cases htok : w.uuidResults w.uuidCalls with
  | error code =>
    rw [bytes_fail m w code htok] at hser
    simp at hser
  | ok v1 =>
    simp only [bytes_ok m w v1 htok, SendMail, Spec.call, Spec.recipients, Spec.afterBytes,
      List.length_append, List.length_map, and_self]

/-- The envelope of `richMessage` sent in `sampleWorld`. -/
theorem envelope_construction_witness :
    richMessage.From.Email ≠ [] ∧
    richMessage.To.length + richMessage.Cc.length + richMessage.Bcc.length ≠ 0 ∧
    (richMessage.bytes sampleWorld).1.2 = none ∧
    ((Send (str "relay:25") ⟨7⟩ richMessage sampleWorld).2.2.sent = sampleWorld.sent ++
        [{ addr := str "relay:25", auth := ⟨7⟩, sender := richMessage.From.Email,
           rcpts := richMessage.To.map (fun a => a.Email) ++
             richMessage.Cc.map (fun a => a.Email) ++ richMessage.Bcc.map (fun a => a.Email),
           msg := (richMessage.bytes sampleWorld).1.1 }] ∧
      (richMessage.To.map (fun a => a.Email) ++ richMessage.Cc.map (fun a => a.Email) ++
        richMessage.Bcc.map (fun a => a.Email)).length =
          richMessage.To.length + richMessage.Cc.length + richMessage.Bcc.length ∧
      (Send (str "relay:25") ⟨7⟩ richMessage sampleWorld).1 =
        (SendMail (richMessage.bytes sampleWorld).2.2
          (Spec.call (str "relay:25") ⟨7⟩ richMessage (richMessage.bytes sampleWorld).1.1)).1 ∧
      (Send (str "relay:25") ⟨7⟩ richMessage sampleWorld).2.2 =
        (SendMail (richMessage.bytes sampleWorld).2.2
          (Spec.call (str "relay:25") ⟨7⟩ richMessage (richMessage.bytes sampleWorld).1.1)).2) :=
  ⟨by decide, by decide, rfl,
    envelope_construction (str "relay:25") ⟨7⟩ richMessage sampleWorld (by decide) (by decide) rfl⟩

/-- C6. Missing sender: when the sender has no email, `Send` fails with the error
`from is not set`, whatever the recipients, the sender's name and the content, and leaves
the message and the world, hence the log of transport calls, as they were. -/
theorem missing_sender (addr : Bytes) (auth : Auth) (m : Message) (w : World)
    (hfrom : m.From.Email = []) :
    Send addr auth m w = (some (.errorf "from is not set"), m, w) ∧
      (Send addr auth m w).2.2.sent = w.sent := by
  rw [missing_sender_eq addr auth m w hfrom]
  exact ⟨rfl, rfl⟩

/-- The message `richMessage` without sender email, sent in `sampleWorld`. -/
theorem missing_sender_witness :
    ({ richMessage with From := { Email := [], Name := str "A" } } : Message).From.Email = [] ∧
    (Send (str "relay:25") ⟨7⟩ { richMessage with From := { Email := [], Name := str "A" } }
        sampleWorld =
      (some (.errorf "from is not set"),
        { richMessage with From := { Email := [], Name := str "A" } }, sampleWorld) ∧
    (Send (str "relay:25") ⟨7⟩ { richMessage with From := { Email := [], Name := str "A" } }
        sampleWorld).2.2.sent = sampleWorld.sent) :=
  ⟨rfl, missing_sender (str "relay:25") ⟨7⟩
    { richMessage with From := { Email := [], Name := str "A" } } sampleWorld rfl⟩

/-- C7. No recipients: when the sender has an email, `Send` fails with the error
`zero receivers` without a transport call exactly when To, Cc and Bcc are all empty; this
error is not the missing-sender error. -/
theorem no_recipients (addr : Bytes) (auth : Auth) (m : Message) (w : World)
    (hfrom : m.From.Email ≠ []) :
    (((Send addr auth m w).1 = some (.errorf "zero receivers") ∧
        (Send addr auth m w).2.2.sent = w.sent) ↔
      (m.To = [] ∧ m.Cc = [] ∧ m.Bcc = [])) ∧
    Error.errorf "zero receivers" ≠ Error.errorf "from is not set" := by
  refine ⟨?_, by decide⟩
  rw [Send_eq addr auth m w hfrom]
  constructor
  · intro h
    by_cases hc : m.To.length + m.Cc.length + m.Bcc.length = 0
    · refine ⟨?_, ?_, ?_⟩ <;> apply List.eq_nil_of_length_eq_zero <;> omega
    · exfalso
      rw [if_neg hc] at h
      cases htok : w.uuidResults w.uuidCalls with
      | error code =>
        rw [bytes_fail m w code htok] at h
        simp at h
      | ok v1 =>
        rw [bytes_ok m w v1 htok] at h
        simp [SendMail] at h
  · rintro ⟨h1, h2, h3⟩
    simp [h1, h2, h3]

/-- The message `plainMessage` without recipients, sent in `sampleWorld`. -/
theorem no_recipients_witness :
    ({ plainMessage with To := [] } : Message).From.Email ≠ [] ∧
    ((((Send (str "relay:25") ⟨7⟩ { plainMessage with To := [] } sampleWorld).1 =
          some (.errorf "zero receivers") ∧
        (Send (str "relay:25") ⟨7⟩ { plainMessage with To := [] } sampleWorld).2.2.sent =
          sampleWorld.sent) ↔
      (({ plainMessage with To := [] } : Message).To = [] ∧
        ({ plainMessage with To := [] } : Message).Cc = [] ∧
        ({ plainMessage with To := [] } : Message).Bcc = [])) ∧
    Error.errorf "zero receivers" ≠ Error.errorf "from is not set") :=
  ⟨by decide, no_recipients (str "relay:25") ⟨7⟩ { plainMessage with To := [] } sampleWorld
    (by decide)⟩

/-- The dispatch-time invariant as the spec words it fails at `blankRecipientMessage`:
`Send` draws a token and reaches the transport although no recipient entry has a
non-empty email. -/
theorem blank_recipient_dispatched :
    ¬ (((Send (str "relay:25") ⟨7⟩ blankRecipientMessage sampleWorld).2.2.uuidCalls ≠
          sampleWorld.uuidCalls ∧
        (Send (str "relay:25") ⟨7⟩ blankRecipientMessage sampleWorld).2.2.sent ≠
          sampleWorld.sent) →
      blankRecipientMessage.From.Email ≠ [] ∧
        ∃ a ∈ blankRecipientMessage.To ++ blankRecipientMessage.Cc ++ blankRecipientMessage.Bcc,
          a.Email ≠ []) := by
  decide

/-- C8, amended. Dispatch guard: `Send` draws a token for serialization or reaches the
transport only if the sender has an email and at least one of To, Cc and Bcc has an
entry; a message without sender email or without any recipient entry is rejected before
both. -/
theorem dispatch_guard (addr : Bytes) (auth : Auth) (m : Message) (w : World)
    (hrun : (Send addr auth m w).2.2.uuidCalls ≠ w.uuidCalls ∨
      (Send addr auth m w).2.2.sent ≠ w.sent) :
    m.From.Email ≠ [] ∧ (m.To ≠ [] ∨ m.Cc ≠ [] ∨ m.Bcc ≠ []) := by
  by_cases hfrom : m.From.Email = []
  · rw [(missing_sender_eq addr auth m w hfrom)] at hrun
    simp at hrun
  · refine ⟨hfrom, ?_⟩
    rw [Send_eq addr auth m w hfrom] at hrun
    by_cases hc : m.To.length + m.Cc.length + m.Bcc.length = 0
    · rw [if_pos hc] at hrun
      simp at hrun
    · by_contra hall
      simp only [not_or, not_not] at hall
      obtain ⟨h1, h2, h3⟩ := hall
      simp [h1, h2, h3] at hc

/-- The dispatch guard at `blankRecipientMessage` in `sampleWorld`. -/
theorem dispatch_guard_witness :
    ((Send (str "relay:25") ⟨7⟩ blankRecipientMessage sampleWorld).2.2.uuidCalls ≠
        sampleWorld.uuidCalls ∨
      (Send (str "relay:25") ⟨7⟩ blankRecipientMessage sampleWorld).2.2.sent ≠
        sampleWorld.sent) ∧
    (blankRecipientMessage.From.Email ≠ [] ∧
      (blankRecipientMessage.To ≠ [] ∨ blankRecipientMessage.Cc ≠ [] ∨
        blankRecipientMessage.Bcc ≠ [])) :=
  ⟨by decide, dispatch_guard (str "relay:25") ⟨7⟩ blankRecipientMessage sampleWorld (by decide)⟩

/-! ### Lines and boundary markers (C9) -/

/-- Reading a concatenation is reading its parts in turn. -/
theorem scan_append (s : Scan) (a b : Bytes) : scan s (a ++ b) = scan (scan s a) b := by
  simp [scan, List.foldl_append]

/-- The state `marked` is never left. -/
theorem scan_marked (t : Bytes) : scan .marked t = .marked := by
  induction t with
  | nil => rfl
  | cons c cs ih => simpa [scan, Scan.step] using ih

/-- A text has at least one line. -/
theorem lines_ne_nil (t : Bytes) : lines t ≠ [] := by
  cases t with
  | nil => simp [lines]
  | cons c cs =>
    simp only [lines]
    split
    · simp
    · split <;> simp

/-- A byte other than line-feed extends the first line. -/
theorem lines_cons_of_ne (c : UInt8) (cs : Bytes) (h : c ≠ 10) :
    lines (c :: cs) = (c :: (lines cs).headD []) :: (lines cs).tail := by
  simp only [lines, if_neg h]
  have := lines_ne_nil cs
  cases hl : lines cs with
  | nil => exact absurd hl this
  | cons l ls => simp

/-- The lines of two texts joined by a line-feed are the lines of the one, then the lines
of the other. -/
theorem lines_append_lf (a b : Bytes) : lines (a ++ 10 :: b) = lines a ++ lines b := by
  induction a with
  | nil => simp [lines]
  | cons c cs ih =>
    by_cases h : c = 10
    · simp [lines, h, ih]
    · rw [List.cons_append, lines_cons_of_ne c _ h, lines_cons_of_ne c _ h, ih]
      have := lines_ne_nil cs
      cases hl : lines cs with
      | nil => exact absurd hl this
      | cons l ls => simp

/-- A text without line-feed is one line. -/
theorem lines_of_no_lf (t : Bytes) (h : (10 : UInt8) ∉ t) : lines t = [t] := by
  induction t with
  | nil => rfl
  | cons c cs ih =>
    simp only [List.mem_cons, not_or] at h
    rw [lines_cons_of_ne c cs (Ne.symm h.1), ih h.2]
    rfl

/-- A text read from the start of a line without reaching `marked` has no line starting
with two dashes; likewise from inside a line and from after a leading dash. -/
theorem scan_lines (t : Bytes) :
    (scan .start t ≠ .marked → ∀ l ∈ lines t, ¬ str "--" <+: l) ∧
    (scan .text t ≠ .marked → ∀ l ∈ (lines t).tail, ¬ str "--" <+: l) ∧
    (scan .dash t ≠ .marked →
      ¬ str "-" <+: (lines t).headD [] ∧ ∀ l ∈ (lines t).tail, ¬ str "--" <+: l) := by
  induction t with
  | nil =>
    refine ⟨?_, ?_, ?_⟩ <;> intro _ <;> simp [lines, str]
  | cons c cs ih =>
    obtain ⟨ih0, ih2, ih1⟩ := ih
    by_cases h10 : c = 10
    · subst h10
      have e : ∀ s, s ≠ Scan.marked → scan s (10 :: cs) = scan .start cs := by
        intro s hs; cases s <;> first | rfl | exact absurd rfl hs
      have hl : lines (10 :: cs) = [] :: lines cs := by simp [lines]
      refine ⟨?_, ?_, ?_⟩
      · intro h l hmem
        rw [e _ (by decide)] at h
        rw [hl] at hmem
        rcases List.mem_cons.1 hmem with rfl | hmem
        · simp [str]
        · exact ih0 h l hmem
      · intro h l hmem
        rw [e _ (by decide)] at h
        rw [hl] at hmem
        exact ih0 h l hmem
      · intro h
        rw [e _ (by decide)] at h
        rw [hl]
        exact ⟨by simp [str], fun l hmem => ih0 h l hmem⟩
    · rw [lines_cons_of_ne c cs h10]
      by_cases h45 : c = 45
      · subst h45
        refine ⟨?_, ?_, ?_⟩
        · intro h l hmem
          have h1 : scan .dash cs ≠ .marked := h
          obtain ⟨ha, hb⟩ := ih1 h1
          rcases List.mem_cons.1 hmem with rfl | hmem
          · intro hp
            apply ha
            have : str "--" = 45 :: str "-" := rfl
            rw [this] at hp
            exact (List.cons_prefix_cons.1 hp).2
          · exact hb l hmem
        · intro h l hmem
          have h1 : scan .text cs ≠ .marked := h
          exact ih2 h1 l hmem
        · intro h
          exfalso
          apply h
          show scan .marked cs = .marked
          exact scan_marked cs
      · have e : ∀ s, s ≠ Scan.marked → scan s (c :: cs) = scan .text cs := by
          intro s hs
          cases s <;> first | exact absurd rfl hs | simp [scan, Scan.step, h10, h45]
        have hc : ¬ str "--" <+: c :: (lines cs).headD [] := by
          intro hp
          have : str "--" = 45 :: str "-" := rfl
          rw [this] at hp
          exact h45 (List.cons_prefix_cons.1 hp).1.symm
        refine ⟨?_, ?_, ?_⟩
        · intro h l hmem
          rw [e _ (by decide)] at h
          rcases List.mem_cons.1 hmem with rfl | hmem
          · exact hc
          · exact ih2 h l hmem
        · intro h l hmem
          rw [e _ (by decide)] at h
          exact ih2 h l hmem
        · intro h
          rw [e _ (by decide)] at h
          refine ⟨?_, fun l hmem => ih2 h l hmem⟩
          intro hp
          have : str "-" = [45] := rfl
          rw [this] at hp
          exact h45 (List.cons_prefix_cons.1 hp).1.symm

/-- Dropping the first byte keeps a text free of two dashes in a row. -/
theorem dashFree_tail (c : UInt8) (cs : Bytes) (h : dashFree (c :: cs)) : dashFree cs :=
  fun hi => h (hi.trans (List.suffix_cons c cs).isInfix)

/-- A text without any dash has no two dashes in a row. -/
theorem dashFree_of_no_dash (t : Bytes) (h : (45 : UInt8) ∉ t) : dashFree t := by
  intro hi
  apply h
  have h45 : (45 : UInt8) ∈ str "--" := by decide
  exact hi.subset h45

/-- Reading a text without two dashes in a row from the start of a line or from inside
a line never reaches `marked`. -/
theorem scan_dashFree (t : Bytes) :
    (dashFree t → scan .start t ≠ .marked ∧ scan .text t ≠ .marked) ∧
    (dashFree (45 :: t) → scan .dash t ≠ .marked) := by
  induction t with
  | nil => exact ⟨fun _ => ⟨by decide, by decide⟩, fun _ => by decide⟩
  | cons c cs ih =>
    obtain ⟨ih0, ih1⟩ := ih
    by_cases h10 : c = 10
    · subst h10
      refine ⟨fun h => ⟨(ih0 (dashFree_tail _ _ h)).1, (ih0 (dashFree_tail _ _ h)).1⟩,
        fun h => (ih0 (dashFree_tail _ _ (dashFree_tail _ _ h))).1⟩
    · by_cases h45 : c = 45
      · subst h45
        refine ⟨fun h => ⟨ih1 h, (ih0 (dashFree_tail _ _ h)).2⟩, fun h => ?_⟩
        exact absurd (List.prefix_append (str "--") cs).isInfix h
      · have e : ∀ s, s ≠ Scan.marked → scan s (c :: cs) = scan .text cs := by
          intro s hs
          cases s <;> first | exact absurd rfl hs | simp [scan, Scan.step, h10, h45]
        refine ⟨fun h => ?_, fun h => ?_⟩
        · rw [e _ (by decide), e _ (by decide)]
          exact ⟨(ih0 (dashFree_tail _ _ h)).2, (ih0 (dashFree_tail _ _ h)).2⟩
        · rw [e _ (by decide)]
          exact (ih0 (dashFree_tail _ _ (dashFree_tail _ _ h))).2

/-- Inside a line, a text without line-feed keeps the reader inside the line. -/
theorem scan_text_of_no_lf (t : Bytes) (h : (10 : UInt8) ∉ t) : scan .text t = .text := by
  induction t with
  | nil => rfl
  | cons c cs ih =>
    simp only [List.mem_cons, not_or] at h
    have : scan .text (c :: cs) = scan .text cs := by
      simp [scan, Scan.step, Ne.symm h.1]
    rw [this, ih h.2]

/-- A byte other than dash and line-feed puts the reader inside a line. -/
theorem scan_cons_text (s : Scan) (hs : s ≠ .marked) (c : UInt8) (cs : Bytes)
    (h10 : c ≠ 10) (h45 : c ≠ 45) : scan s (c :: cs) = scan .text cs := by
  cases s <;> first | exact absurd rfl hs | simp [scan, Scan.step, h10, h45]

/-- A line-feed puts the reader at the start of a line. -/
theorem scan_cons_lf (s : Scan) (hs : s ≠ .marked) (cs : Bytes) :
    scan s (10 :: cs) = scan .start cs := by
  cases s <;> first | exact absurd rfl hs | rfl

/-- Reading ` <`. -/
theorem scan_lit_open (s : Scan) (hs : s ≠ .marked) : scan s (str " <") = .text := by
  cases s <;> first | exact absurd rfl hs | rfl

/-- Reading `>`. -/
theorem scan_lit_close (s : Scan) (hs : s ≠ .marked) : scan s (str ">") = .text := by
  cases s <;> first | exact absurd rfl hs | rfl

/-- Reading `;`. -/
theorem scan_lit_semicolon (s : Scan) (hs : s ≠ .marked) : scan s (str ";") = .text := by
  cases s <;> first | exact absurd rfl hs | rfl

/-- Reading a line-feed. -/
theorem scan_lit_lf (s : Scan) (hs : s ≠ .marked) : scan s (str "\n") = .start := by
  cases s <;> first | exact absurd rfl hs | rfl

/-- Reading `From:`. -/
theorem scan_lit_from (s : Scan) (hs : s ≠ .marked) : scan s (str "From:") = .text := by
  cases s <;> first | exact absurd rfl hs | rfl

/-- Reading `To: `. -/
theorem scan_lit_to (s : Scan) (hs : s ≠ .marked) : scan s (str "To: ") = .text := by
  cases s <;> first | exact absurd rfl hs | rfl

/-- Reading `Cc: `. -/
theorem scan_lit_cc (s : Scan) (hs : s ≠ .marked) : scan s (str "Cc: ") = .text := by
  cases s <;> first | exact absurd rfl hs | rfl

/-- Reading `Subject: `. -/
theorem scan_lit_subject (s : Scan) (hs : s ≠ .marked) : scan s (str "Subject: ") = .text := by
  cases s <;> first | exact absurd rfl hs | rfl

/-- Reading the MIME-Version line. -/
theorem scan_lit_mime (s : Scan) (hs : s ≠ .marked) :
    scan s (str "MIME-Version: 1.0\n") = .start := by
  cases s <;> first | exact absurd rfl hs | rfl

/-- Reading the multipart header up to the token. -/
theorem scan_lit_multipart (s : Scan) (hs : s ≠ .marked) :
    scan s (str "Content-Type: multipart/mixed; boundary=") = .text := by
  cases s <;> first | exact absurd rfl hs | rfl

/-- Reading the text/html header line. -/
theorem scan_lit_html (s : Scan) (hs : s ≠ .marked) :
    scan s (str "Content-Type: text/html; charset=utf-8\n") = .start := by
  cases s <;> first | exact absurd rfl hs | rfl

set_option maxRecDepth 8192 in
/-- Reading the headers of an attachment part up to the file name. -/
theorem scan_lit_attachment (s : Scan) (hs : s ≠ .marked) :
    scan s (str "Content-Type: application/octet-stream\nContent-Transfer-Encoding: base64\nContent-Disposition: attachment; filename=\"") =
      .text := by
  cases s <;> first | exact absurd rfl hs | rfl

/-- Reading the closing quote of a file name and the blank line. -/
theorem scan_lit_quote (s : Scan) (hs : s ≠ .marked) : scan s (str "\"\n\n") = .start := by
  cases s <;> first | exact absurd rfl hs | rfl

/-- A rendered address without two dashes in a row in its name and email. -/
theorem scan_render (a : Address) (hn : dashFree a.Name) (he : dashFree a.Email) (s : Scan)
    (hs : s = .start ∨ s = .text) : scan s (Spec.render a) ≠ .marked := by
  have hfree : ∀ t : Bytes, dashFree t → scan s t ≠ .marked := by
    intro t ht
    rcases hs with rfl | rfl
    · exact ((scan_dashFree t).1 ht).1
    · exact ((scan_dashFree t).1 ht).2
  unfold Spec.render
  split
  · exact hfree _ he
  · rw [scan_append, scan_append, scan_append, scan_lit_open _ (hfree _ hn),
      scan_lit_close _ ((scan_dashFree _).1 he).2]
    decide

/-- The joined renderings of addresses without two dashes in a row. -/
theorem scan_joined (as : List Address) (h : ∀ a ∈ as, dashFree a.Name ∧ dashFree a.Email) :
    ∀ s : Scan, s = .start ∨ s = .text →
      scan s (List.intercalate (str ";") (as.map Spec.render)) ≠ .marked := by
  rw [← Join_eq_intercalate]
  induction as with
  | nil => rintro s (rfl | rfl) <;> decide
  | cons a as ih =>
    intro s hs
    have ha := h a (List.mem_cons_self a as)
    cases as with
    | nil => exact scan_render a ha.1 ha.2 s hs
    | cons b rest =>
      have ih2 := ih (fun x hx => h x (List.mem_cons_of_mem a hx)) .text (Or.inr rfl)
      simp only [List.map_cons, Join] at ih2 ⊢
      rw [scan_append, scan_append, scan_lit_semicolon _ (scan_render a ha.1 ha.2 s hs)]
      exact ih2

/-- A recipient line leaves the reader at the start of a line. -/
theorem scan_listLine (label : Bytes) (hl : scan .start label = .text) (as : List Address)
    (h : ∀ a ∈ as, dashFree a.Name ∧ dashFree a.Email) :
    scan .start (Spec.listLine label as) = .start := by
  unfold Spec.listLine
  split
  · rfl
  · rw [scan_append, scan_append, hl, scan_lit_lf _ (scan_joined as h .text (Or.inr rfl))]

/-- The `From:` line leaves the reader at the start of a line. -/
theorem scan_fromLine (m : Message) (hn : dashFree m.From.Name) (he : dashFree m.From.Email) :
    scan .start (Spec.fromLine m) = .start := by
  unfold Spec.fromLine
  split
  · rfl
  · rw [scan_append, scan_append, scan_lit_from _ (by decide),
      scan_lit_lf _ (scan_render m.From hn he .text (Or.inr rfl))]

/-- The header block of a message without two dashes in a row in its sender, its To and
Cc addresses and its subject has no line starting with two dashes and ends a line. -/
theorem scan_headerBlock (m : Message) (hn : dashFree m.From.Name)
    (he : dashFree m.From.Email) (hto : ∀ a ∈ m.To, dashFree a.Name ∧ dashFree a.Email)
    (hcc : ∀ a ∈ m.Cc, dashFree a.Name ∧ dashFree a.Email) (hsub : dashFree m.Subject) :
    scan .start (Spec.headerBlock m) = .start := by
  unfold Spec.headerBlock
  rw [scan_append, scan_append, scan_append, scan_append, scan_append, scan_append,
    scan_fromLine m hn he, scan_listLine _ (scan_lit_to _ (by decide)) m.To hto,
    scan_listLine _ (scan_lit_cc _ (by decide)) m.Cc hcc, scan_lit_subject _ (by decide),
    scan_lit_lf _ ((scan_dashFree _).1 hsub).2, scan_lit_mime _ (by decide)]

/-- No hexadecimal digit is a line-feed. -/
theorem hextable_ne_lf (k : Nat) : hextable.getD k 0 ≠ 10 := by
  by_cases hk : k < 16
  · have h : ∀ i : Fin 16, hextable.getD i.val 0 ≠ 10 := by decide
    exact h ⟨k, hk⟩
  · have hlen : hextable.length = 16 := rfl
    rw [List.getD_eq_default _ _ (by omega)]
    decide

/-- Hexadecimal text has no line-feed. -/
theorem hexEncode_no_lf (src : Bytes) : (10 : UInt8) ∉ hexEncode src := by
  unfold hexEncode
  simp only [List.mem_flatMap, List.mem_cons, List.mem_singleton, not_exists, not_and,
    List.not_mem_nil, or_false]
  intro v _ h
  rcases h with h | h
  · exact hextable_ne_lf _ h.symm
  · exact hextable_ne_lf _ h.symm

/-- The text of a token has no line-feed. -/
theorem String_no_lf (u : UUID) : (10 : UInt8) ∉ u.String := by
  unfold UUID.String
  simp only [List.mem_append, List.mem_singleton, not_or]
  refine ⟨⟨⟨⟨⟨⟨⟨⟨?_, ?_⟩, ?_⟩, ?_⟩, ?_⟩, ?_⟩, ?_⟩, ?_⟩, ?_⟩ <;>
    first | exact hexEncode_no_lf _ | decide

/-- No byte of the base64 alphabet is a dash or a line-feed. -/
theorem encodeStdAt_ne (val : Nat) : encodeStdAt val ≠ 45 ∧ encodeStdAt val ≠ 10 := by
  have h : ∀ i : Fin 64, encodeStd.getD i.val 0 ≠ 45 ∧ encodeStd.getD i.val 0 ≠ 10 := by
    decide
  exact h ⟨val % 64, Nat.mod_lt _ (by decide)⟩

/-- A base64 payload has no dash and no line-feed. -/
theorem base64Encode_bytes : ∀ (v : Bytes) (c : UInt8), c ∈ base64Encode v → c ≠ 45 ∧ c ≠ 10
  | [], c, h => by simp [base64Encode] at h
  | [a], c, h => by
    simp only [base64Encode, List.mem_cons, List.mem_singleton, List.not_mem_nil, or_false] at h
    rcases h with rfl | rfl | rfl | rfl <;> first | exact encodeStdAt_ne _ | decide
  | [a, b], c, h => by
    simp only [base64Encode, List.mem_cons, List.mem_singleton, List.not_mem_nil, or_false] at h
    rcases h with rfl | rfl | rfl | rfl <;> first | exact encodeStdAt_ne _ | decide
  | a :: b :: d :: rest, c, h => by
    simp only [base64Encode, List.mem_cons] at h
    rcases h with rfl | rfl | rfl | rfl | h
    · exact encodeStdAt_ne _
    · exact encodeStdAt_ne _
    · exact encodeStdAt_ne _
    · exact encodeStdAt_ne _
    · exact base64Encode_bytes rest c h

/-- A map with one entry is walked in one way. -/
theorem shuffle_singleton {α : Type} (ps : List Nat) (x : α) : shuffle ps [x] = [x] := by
  cases ps with
  | nil => rfl
  | cons p ps => cases ps <;> simp [shuffle, Nat.mod_one]

/-- A map without entry is walked in one way. -/
theorem shuffle_nil {α : Type} (ps : List Nat) : shuffle ps ([] : List α) = [] := by
  cases ps <;> rfl

/-- The output for a message with the single attachment `(n, v)` and no inline, cut at
the line-feeds around its boundary markers. -/
theorem output_single (m : Message) (B n v : Bytes) (hatt : m.attachments.entries = [(n, v)]) :
    Spec.output m B [(n, v)] [] =
      (Spec.headerBlock m ++ str "Content-Type: multipart/mixed; boundary=" ++ B) ++ 10 ::
      ((str "--" ++ B) ++ 10 ::
      ((str "Content-Type: text/html; charset=utf-8\n" ++ Spec.body m) ++ 10 ::
      ([] ++ 10 ::
      ((str "--" ++ B) ++ 10 ::
      ((str "Content-Type: application/octet-stream\nContent-Transfer-Encoding: base64\nContent-Disposition: attachment; filename=\"" ++
          n ++ str "\"\n\n" ++ base64Encode v) ++ 10 ::
      (str "--" ++ B ++ str "--")))))) := by
  have hm : m.attachments.len > 0 ∨ m.inlines.len > 0 := by
    left; simp [GoMap.len, hatt]
  have e1 : str "\n--" = 10 :: str "--" := rfl
  have e2 : str "\n\n--" = 10 :: 10 :: str "--" := rfl
  have e3 : str "\n" = [10] := rfl
  have e4 : str "\nContent-Type: application/octet-stream\nContent-Transfer-Encoding: base64\nContent-Disposition: attachment; filename=\"" =
      10 :: str "Content-Type: application/octet-stream\nContent-Transfer-Encoding: base64\nContent-Disposition: attachment; filename=\"" :=
    rfl
  simp only [Spec.output, if_pos hm, Spec.attachmentPart, List.map_cons, List.map_nil,
    List.flatten_cons, List.flatten_nil, e1, e2, e3, e4, List.append_assoc, List.cons_append,
    List.nil_append, List.append_nil]

/-- C9. Single attachment and marker consistency: for a message with exactly one attachment
`(n, v)` and no inline, the output contains the part
`Content-Disposition: attachment; filename="n"`, a blank line and the base64 text of `v`
(`aGk=` for `hi`); it declares the token `B` in its multipart header, its last line is
`--B--`, and when no text of the caller (sender, To and Cc addresses, subject, body,
attachment name) contains two dashes in a row, every line that starts with `--` is `--B`
or `--B--`. -/
theorem single_attachment (m : Message) (w : World) (v1 : UUID) (n v : Bytes)
    (htok : w.uuidResults w.uuidCalls = .ok v1)
    (hatt : m.attachments.entries = [(n, v)]) (hinl : m.inlines.entries = []) :
    (str "Content-Disposition: attachment; filename=\"" ++ n ++ str "\"\n\n" ++ base64Encode v)
        <:+: (m.bytes w).1.1 ∧
      base64Encode (str "hi") = str "aGk=" ∧
      (Spec.headerBlock m ++ str "Content-Type: multipart/mixed; boundary=" ++ v1.String ++
        str "\n") <+: (m.bytes w).1.1 ∧
      (∃ ls, lines (m.bytes w).1.1 = ls ++ [str "--" ++ v1.String ++ str "--"]) ∧
      (dashFree m.From.Name → dashFree m.From.Email →
        (∀ a ∈ m.To ++ m.Cc, dashFree a.Name ∧ dashFree a.Email) →
        dashFree m.Subject → dashFree (Spec.body m) → dashFree n →
        ∀ l ∈ lines (m.bytes w).1.1, str "--" <+: l →
          l = str "--" ++ v1.String ∨ l = str "--" ++ v1.String ++ str "--") := by
  have hoa : attachmentOrder m w = [(n, v)] := by
    unfold attachmentOrder; rw [hatt, shuffle_singleton]
  have hoi : inlineOrder m w = [] := by
    unfold inlineOrder; rw [hinl, shuffle_nil]
  have hm : m.attachments.len > 0 ∨ m.inlines.len > 0 := by
    left; simp [GoMap.len, hatt]
  have hB : (10 : UInt8) ∉ str "--" ++ v1.String := by
    simp only [List.mem_append, not_or]
    exact ⟨by decide, String_no_lf v1⟩
  have hB2 : (10 : UInt8) ∉ str "--" ++ v1.String ++ str "--" := by
    simp only [List.mem_append, not_or]
    exact ⟨⟨by decide, String_no_lf v1⟩, by decide⟩
  rw [bytes_ok m w v1 htok, hoa, hoi]
  refine ⟨?_, by decide, ?_, ?_, ?_⟩
  · refine ⟨Spec.headerBlock m ++ str "Content-Type: multipart/mixed; boundary=" ++ v1.String ++
      str "\n--" ++ v1.String ++ str "\n" ++ str "Content-Type: text/html; charset=utf-8\n" ++
      Spec.body m ++ str "\n\n--" ++ v1.String ++
      str "\nContent-Type: application/octet-stream\nContent-Transfer-Encoding: base64\n",
      str "\n--" ++ v1.String ++ str "--", ?_⟩
    have e : str "\nContent-Type: application/octet-stream\nContent-Transfer-Encoding: base64\nContent-Disposition: attachment; filename=\"" =
        str "\nContent-Type: application/octet-stream\nContent-Transfer-Encoding: base64\n" ++
          str "Content-Disposition: attachment; filename=\"" := rfl
    simp only [Spec.output, if_pos hm, Spec.attachmentPart, List.map_cons, List.map_nil,
      List.flatten_cons, List.flatten_nil, e, List.append_assoc, List.append_nil]
  · have e : str "\n--" = str "\n" ++ str "--" := rfl
    refine ⟨str "--" ++ v1.String ++ str "\n" ++ str "Content-Type: text/html; charset=utf-8\n" ++
      Spec.body m ++ Spec.attachmentPart v1.String (n, v) ++ str "--", ?_⟩
    simp only [Spec.output, if_pos hm, List.map_cons, List.map_nil, List.flatten_cons,
      List.flatten_nil, e, List.append_assoc, List.append_nil]
  · rw [output_single m v1.String n v hatt]
    simp only [lines_append_lf, lines_of_no_lf _ hB2, ← List.append_assoc]
    exact ⟨_, rfl⟩
  · intro hn he hads hsub hbody hname l hl hp
    rw [output_single m v1.String n v hatt] at hl
    simp only [lines_append_lf, lines_of_no_lf _ hB, lines_of_no_lf _ hB2, List.mem_append,
      List.mem_singleton] at hl
    have hhead : scan .start (Spec.headerBlock m) = .start :=
      scan_headerBlock m hn he (fun a ha => hads a (List.mem_append_left _ ha))
        (fun a ha => hads a (List.mem_append_right _ ha)) hsub
    rcases hl with hl | rfl | hl | hl | rfl | hl | rfl
    · exfalso
      refine (scan_lines _).1 ?_ l hl hp
      rw [scan_append, scan_append, hhead, scan_lit_multipart _ (by decide),
        scan_text_of_no_lf _ (String_no_lf v1)]
      decide
    · exact Or.inl rfl
    · exfalso
      refine (scan_lines _).1 ?_ l hl hp
      rw [scan_append, scan_lit_html _ (by decide)]
      exact ((scan_dashFree _).1 hbody).1
    · exfalso
      have : l = [] := by simpa [lines] using hl
      subst this
      exact absurd hp (by decide)
    · exact Or.inl rfl
    · exfalso
      refine (scan_lines _).1 ?_ l hl hp
      rw [scan_append, scan_append, scan_append, scan_lit_attachment _ (by decide),
        scan_lit_quote _ ((scan_dashFree _).1 hname).2]
      refine ((scan_dashFree _).1 (dashFree_of_no_dash _ ?_)).1
      intro h45
      exact (base64Encode_bytes v 45 h45).1 rfl
    · exact Or.inr rfl

/-- The markers of `attachedMessage` serialized in `sampleWorld`; its texts have no two
dashes in a row. -/
theorem single_attachment_witness :
    sampleWorld.uuidResults sampleWorld.uuidCalls = .ok sampleUUID ∧
    attachedMessage.attachments.entries = [(str "a.txt", str "hi")] ∧
    attachedMessage.inlines.entries = [] ∧
    (dashFree attachedMessage.From.Name ∧ dashFree attachedMessage.From.Email ∧
      (∀ a ∈ attachedMessage.To ++ attachedMessage.Cc, dashFree a.Name ∧ dashFree a.Email) ∧
      dashFree attachedMessage.Subject ∧ dashFree (Spec.body attachedMessage) ∧
      dashFree (str "a.txt")) ∧
    ((str "Content-Disposition: attachment; filename=\"" ++ str "a.txt" ++ str "\"\n\n" ++
          base64Encode (str "hi")) <:+: (attachedMessage.bytes sampleWorld).1.1 ∧
      base64Encode (str "hi") = str "aGk=" ∧
      (Spec.headerBlock attachedMessage ++ str "Content-Type: multipart/mixed; boundary=" ++
        sampleUUID.String ++ str "\n") <+: (attachedMessage.bytes sampleWorld).1.1 ∧
      (∃ ls, lines (attachedMessage.bytes sampleWorld).1.1 =
        ls ++ [str "--" ++ sampleUUID.String ++ str "--"]) ∧
      (dashFree attachedMessage.From.Name → dashFree attachedMessage.From.Email →
        (∀ a ∈ attachedMessage.To ++ attachedMessage.Cc, dashFree a.Name ∧ dashFree a.Email) →
        dashFree attachedMessage.Subject → dashFree (Spec.body attachedMessage) →
        dashFree (str "a.txt") →
        ∀ l ∈ lines (attachedMessage.bytes sampleWorld).1.1, str "--" <+: l →
          l = str "--" ++ sampleUUID.String ∨
            l = str "--" ++ sampleUUID.String ++ str "--")) :=
  ⟨rfl, rfl, rfl, by decide,
    single_attachment attachedMessage sampleWorld sampleUUID (str "a.txt") (str "hi") rfl rfl rfl⟩

/-! ### Inline attachments (C10) -/

/-- A successful `InlineAttach` drew its second token and read its source to the end. -/
theorem InlineAttach_success (m : Message) (name : Bytes) (reader : Reader) (w : World)
    (hok : (m.InlineAttach name reader w).1.2 = none) :
    ∃ v1, w.uuidResults (w.uuidCalls + 1) = .ok v1 ∧ reader.failure = none := by
  unfold Message.InlineAttach at hok
  simp only [NewUUID, ReadAll] at hok
  cases htok : w.uuidResults (w.uuidCalls + 1) with
  | error code => simp [htok] at hok
  | ok v1 =>
    refine ⟨v1, rfl, ?_⟩
    cases hf : reader.failure with
    | none => rfl
    | some code => simp [htok, hf] at hok

/-- What `InlineAttach` returns and leaves when its second token draw answers `v1` and
the source is read to the end. -/
theorem InlineAttach_ok (m : Message) (name : Bytes) (reader : Reader) (w : World) (v1 : UUID)
    (htok : w.uuidResults (w.uuidCalls + 1) = .ok v1) (hread : reader.failure = none) :
    m.InlineAttach name reader w =
      ((v1.String, none),
        Spec.withInline m name { attachment := reader.pending, uuid := v1.String },
        { reader with pending := [] },
        { w with uuidCalls := w.uuidCalls + 1 + 1 }) := by
  unfold Message.InlineAttach Spec.withInline
  simp only [NewUUID, ReadAll, htok, hread, Option.map]
  cases hi : m.inlines <;> simp [GoMap.assign, GoMap.entries, hi]

/-- The part of an entry the inlines are walked over lies in the written parts. -/
theorem part_within {α : Type} (g : α → Bytes) (e : α) (es : List α) (h : e ∈ es) :
    ∃ pre post, (es.map g).flatten = pre ++ g e ++ post := by
  obtain ⟨l1, l2, rfl⟩ := List.append_of_mem h
  exact ⟨(l1.map g).flatten, (l2.map g).flatten, by simp⟩

/-- The output begins with the From line and the To line. -/
theorem output_from_to (m : Message) (B : Bytes) (oa : List (Bytes × Bytes))
    (oi : List (Bytes × inline)) :
    (Spec.fromLine m ++ Spec.listLine (str "To: ") m.To) <+: Spec.output m B oa oi := by
  obtain ⟨rest, h⟩ := output_header m B oa oi
  rw [h]
  simp only [Spec.headerBlock, List.append_assoc]
  exact ⟨_, by simp only [List.append_assoc]; rfl⟩

/-- C10. Inline content identifier: a successful `InlineAttach(name, source)` returns the
identifier `I` that the inlines map then holds under `name` together with the bytes of
the source; whenever `Message.bytes` then serializes the message, the output contains the
part of that entry, in which `Content-ID: <I>` and a line-feed is immediately followed by
`Content-Disposition: inline; filename="name"` and a line-feed, and the output begins
with the same From and To lines as the output for the message before the call. -/
theorem inline_content_id (m : Message) (name : Bytes) (reader : Reader) (w : World)
    (hok : (m.InlineAttach name reader w).1.2 = none) :
    (m.InlineAttach name reader w).2.1.inlines.lookup name =
        some { attachment := reader.pending, uuid := (m.InlineAttach name reader w).1.1 } ∧
    ∀ (w2 : World) (v2 : UUID), w2.uuidResults w2.uuidCalls = .ok v2 →
      Spec.inlinePart v2.String
          (name, { attachment := reader.pending, uuid := (m.InlineAttach name reader w).1.1 })
        <:+: ((m.InlineAttach name reader w).2.1.bytes w2).1.1 ∧
      (str "Content-ID: <" ++ (m.InlineAttach name reader w).1.1 ++ str ">\n" ++
          str "Content-Disposition: inline; filename=\"" ++ name ++ str "\"\n")
        <:+: Spec.inlinePart v2.String
          (name, { attachment := reader.pending, uuid := (m.InlineAttach name reader w).1.1 }) ∧
      (Spec.fromLine m ++ Spec.listLine (str "To: ") m.To)
        <+: ((m.InlineAttach name reader w).2.1.bytes w2).1.1 ∧
      (Spec.fromLine m ++ Spec.listLine (str "To: ") m.To) <+: (m.bytes w2).1.1 := by
  obtain ⟨v1, htok, hread⟩ := InlineAttach_success m name reader w hok
  rw [InlineAttach_ok m name reader w v1 htok hread]
  dsimp only
  refine ⟨by simp [GoMap.lookup, GoMap.entries, Spec.withInline],
    fun w2 v2 h2 => ⟨?_, ?_, ?_, ?_⟩⟩
  · rw [bytes_ok _ w2 v2 h2]
    have hm : (Spec.withInline m name ⟨reader.pending, v1.String⟩).inlines.len > 0 := by
      simp [GoMap.len, GoMap.entries, Spec.withInline]
    have hmem : (name, (⟨reader.pending, v1.String⟩ : inline)) ∈
        inlineOrder (Spec.withInline m name ⟨reader.pending, v1.String⟩) w2 := by
      unfold inlineOrder
      rw [(shuffle_perm _ _).mem_iff]
      simp [GoMap.entries, Spec.withInline]
    obtain ⟨pre, post, hparts⟩ := part_within (Spec.inlinePart v2.String) _ _ hmem
    simp only [Spec.output, if_pos (Or.inr hm), hparts, ← List.append_assoc]
    exact (List.infix_append _ _ _).trans (List.prefix_append _ _).isInfix
  · refine ⟨str "\n\n--" ++ v2.String ++
      str "\nContent-Type: application/octet-stream\nContent-Transfer-Encoding: base64\n",
      str "\n" ++ base64Encode reader.pending ++ str "\n--" ++ v2.String, ?_⟩
    have e1 : str "\nContent-Type: application/octet-stream\nContent-Transfer-Encoding: base64\nContent-ID: <" =
        str "\nContent-Type: application/octet-stream\nContent-Transfer-Encoding: base64\n" ++
          str "Content-ID: <" := rfl
    have e2 : str ">\nContent-Disposition: inline; filename=\"" =
        str ">\n" ++ str "Content-Disposition: inline; filename=\"" := rfl
    have e3 : str "\"\n\n" = str "\"\n" ++ str "\n" := rfl
    simp only [Spec.inlinePart, e1, e2, e3, List.append_assoc]
  · rw [bytes_ok _ w2 v2 h2]
    exact output_from_to (Spec.withInline m name ⟨reader.pending, v1.String⟩) _ _ _
  · rw [bytes_ok _ w2 v2 h2]
    exact output_from_to m _ _ _

/-- The inline `logo.png` attached to `plainMessage` in `sampleWorld`. -/
theorem inline_content_id_witness :
    (plainMessage.InlineAttach (str "logo.png") logoReader sampleWorld).1.2 = none ∧
    ((plainMessage.InlineAttach (str "logo.png") logoReader sampleWorld).2.1.inlines.lookup
          (str "logo.png") =
        some ⟨logoReader.pending,
          (plainMessage.InlineAttach (str "logo.png") logoReader sampleWorld).1.1⟩ ∧
    ∀ (w2 : World) (v2 : UUID), w2.uuidResults w2.uuidCalls = .ok v2 →
      Spec.inlinePart v2.String
          (str "logo.png", ⟨logoReader.pending,
            (plainMessage.InlineAttach (str "logo.png") logoReader sampleWorld).1.1⟩)
        <:+: ((plainMessage.InlineAttach (str "logo.png") logoReader
          sampleWorld).2.1.bytes w2).1.1 ∧
      (str "Content-ID: <" ++
          (plainMessage.InlineAttach (str "logo.png") logoReader sampleWorld).1.1 ++
          str ">\n" ++ str "Content-Disposition: inline; filename=\"" ++ str "logo.png" ++
          str "\"\n")
        <:+: Spec.inlinePart v2.String
          (str "logo.png", ⟨logoReader.pending,
            (plainMessage.InlineAttach (str "logo.png") logoReader sampleWorld).1.1⟩) ∧
      (Spec.fromLine plainMessage ++ Spec.listLine (str "To: ") plainMessage.To)
        <+: ((plainMessage.InlineAttach (str "logo.png") logoReader
          sampleWorld).2.1.bytes w2).1.1 ∧
      (Spec.fromLine plainMessage ++ Spec.listLine (str "To: ") plainMessage.To)
        <+: (plainMessage.bytes w2).1.1) :=
  ⟨rfl, inline_content_id plainMessage (str "logo.png") logoReader sampleWorld rfl⟩

/-! ### Occurrences of a text (C11) -/

/-- A non-empty text occurs in a text exactly when it starts at some place of it. -/
theorem occurrences_pos_iff (p : Bytes) (hp : p ≠ []) (t : Bytes) :
    0 < occurrences p t ↔ p <:+: t := by
  induction t with
  | nil => simp [occurrences, hp]
  | cons c cs ih =>
    rw [List.infix_cons_iff, ← ih]
    simp only [occurrences]
    split <;> simp [*]

/-- A text that does not occur has no occurrence. -/
theorem occurrences_eq_zero (p : Bytes) (hp : p ≠ []) (t : Bytes) (h : ¬ p <:+: t) :
    occurrences p t = 0 := by
  have := (occurrences_pos_iff p hp t).not.2 h
  omega

/-- A text shorter than `p` has no occurrence of `p`. -/
theorem occurrences_short (p t : Bytes) (h : t.length < p.length) : occurrences p t = 0 := by
  have hp : p ≠ [] := by
    intro h0; rw [h0] at h; simp at h
  apply occurrences_eq_zero p hp
  intro hi
  have := hi.length_le
  omega

/-- No occurrence starts at a byte that is not the first byte of `p`. -/
theorem occurrences_cons_ne (a c : UInt8) (p cs : Bytes) (h : c ≠ a) :
    occurrences (a :: p) (c :: cs) = occurrences (a :: p) cs := by
  have : ¬ (a :: p) <+: c :: cs := fun hp => h (List.cons_prefix_cons.1 hp).1.symm
  simp [occurrences, this]

/-- No occurrence starts inside a text that lacks the first byte of `p`. -/
theorem occurrences_skip (a : UInt8) (p : Bytes) (l : Bytes) (h : a ∉ l) (rest : Bytes) :
    occurrences (a :: p) (l ++ rest) = occurrences (a :: p) rest := by
  induction l with
  | nil => rfl
  | cons c cs ih =>
    simp only [List.mem_cons, not_or] at h
    rw [List.cons_append, occurrences_cons_ne a c p _ (Ne.symm h.1), ih h.2]

/-- Before a byte that `p` lacks, `p` starts exactly where it starts in the text before. -/
theorem prefix_append_sep (p x y : Bytes) (c : UInt8) (hc : c ∉ p) :
    p <+: x ++ c :: y ↔ p <+: x := by
  constructor
  · intro h
    by_cases hl : p.length ≤ x.length
    · exact List.prefix_of_prefix_length_le h (List.prefix_append x (c :: y)) hl
    · exfalso
      have hxy : x ++ [c] <+: x ++ c :: y := ⟨y, by simp⟩
      have hx : x ++ [c] <+: p := by
        refine List.prefix_of_prefix_length_le hxy h ?_
        simp; omega
      exact hc (hx.subset (by simp))
  · intro h
    exact h.trans (List.prefix_append x (c :: y))

/-- Across a byte that `p` lacks, the occurrences of `p` are those before and those
after. -/
theorem occurrences_append_sep (p : Bytes) (hp : p ≠ []) (c : UInt8) (hc : c ∉ p)
    (x y : Bytes) : occurrences p (x ++ c :: y) = occurrences p x + occurrences p y := by
  induction x with
  | nil =>
    have h1 : ¬ p <+: c :: y := by
      intro h
      cases p with
      | nil => exact hp rfl
      | cons a p => exact hc (by rw [(List.cons_prefix_cons.1 h).1]; simp)
    simp [occurrences, h1, hp]
  | cons d ds ih =>
    have h2 := prefix_append_sep p (d :: ds) y c hc
    simp only [List.cons_append] at h2 ⊢
    simp only [occurrences, ih, h2]
    omega

/-- The empty text holds no occurrence of a non-empty text. -/
theorem occurrences_nil (p : Bytes) (hp : p ≠ []) : occurrences p [] = 0 := by
  simp [occurrences, hp]

/-- A rendered address followed by a byte that `p` lacks holds no occurrence of `p` when
its name and its email hold none and `p` has no space and no angle bracket. -/
theorem occurrences_render (p : Bytes) (hp : p ≠ []) (h32 : (32 : UInt8) ∉ p)
    (h60 : (60 : UInt8) ∉ p) (h62 : (62 : UInt8) ∉ p) (c : UInt8) (hc : c ∉ p) (a : Address)
    (hn : ¬ p <:+: a.Name) (he : ¬ p <:+: a.Email) (rest : Bytes) :
    occurrences p (Spec.render a ++ c :: rest) = occurrences p rest := by
  unfold Spec.render
  split
  · rw [occurrences_append_sep p hp c hc, occurrences_eq_zero p hp _ he, Nat.zero_add]
  · have e : a.Name ++ str " <" ++ a.Email ++ str ">" ++ c :: rest =
        a.Name ++ 32 :: ([] ++ 60 :: (a.Email ++ 62 :: ([] ++ c :: rest))) := by
      simp only [List.append_assoc, List.nil_append]; rfl
    rw [e, occurrences_append_sep p hp 32 h32, occurrences_append_sep p hp 60 h60,
      occurrences_append_sep p hp 62 h62, occurrences_append_sep p hp c hc,
      occurrences_eq_zero p hp _ hn, occurrences_eq_zero p hp _ he, occurrences_nil p hp]
    omega

/-- The output for a message with one To address, no Cc, an empty subject, no body and no
attachment or inline. -/
theorem output_minimal (m : Message) (t : Address) (B : Bytes) (oa : List (Bytes × Bytes))
    (oi : List (Bytes × inline)) (hto : m.To = [t]) (hcc : m.Cc = []) (hsub : m.Subject = [])
    (hbody : m.Body = none) (hatt : m.attachments.entries = [])
    (hinl : m.inlines.entries = []) :
    Spec.output m B oa oi =
      Spec.fromLine m ++ (str "To: " ++ (Spec.render t ++ 10 ::
        str "Subject: \nMIME-Version: 1.0\nContent-Type: text/html; charset=utf-8\n")) := by
  have hm : ¬ (m.attachments.len > 0 ∨ m.inlines.len > 0) := by
    simp [GoMap.len, hatt, hinl]
  have e : str "Subject: " ++ (str "\n" ++ (str "MIME-Version: 1.0\n" ++
      str "Content-Type: text/html; charset=utf-8\n")) =
      str "Subject: \nMIME-Version: 1.0\nContent-Type: text/html; charset=utf-8\n" := rfl
  simp only [Spec.output, if_neg hm, Spec.headerBlock, Spec.listLine, Spec.body, hto, hcc, hsub,
    hbody, List.map_cons, List.map_nil, List.intercalate, List.intersperse, List.flatten_cons,
    List.flatten_nil, List.append_nil, List.append_assoc, if_true, if_false, str_lf,
    List.singleton_append, List.nil_append, reduceCtorEq, e]
  rfl

/-- The header lines of a minimal message hold no occurrence of a text `a :: p` that the
From and To names and emails do not hold, that has no space, angle bracket or line-feed,
and whose first byte is in neither `From:` nor `To: `. -/
theorem occurrences_minimal (a : UInt8) (p : Bytes) (h32 : (32 : UInt8) ∉ a :: p)
    (h60 : (60 : UInt8) ∉ a :: p) (h62 : (62 : UInt8) ∉ a :: p) (h10 : (10 : UInt8) ∉ a :: p)
    (hfrom : a ∉ str "From:") (hto : a ∉ str "To: ") (m : Message) (t : Address)
    (hfn : ¬ (a :: p) <:+: m.From.Name) (hfe : ¬ (a :: p) <:+: m.From.Email)
    (htn : ¬ (a :: p) <:+: t.Name) (hte : ¬ (a :: p) <:+: t.Email) (rest : Bytes) :
    occurrences (a :: p) (Spec.fromLine m ++ (str "To: " ++ (Spec.render t ++ 10 :: rest))) =
      occurrences (a :: p) rest := by
  have hp : a :: p ≠ [] := by simp
  have h2 : occurrences (a :: p) (str "To: " ++ (Spec.render t ++ 10 :: rest)) =
      occurrences (a :: p) rest := by
    rw [occurrences_skip a p _ hto, occurrences_render _ hp h32 h60 h62 10 h10 t htn hte]
  unfold Spec.fromLine
  split
  · exact h2
  · have e : str "From:" ++ Spec.render m.From ++ str "\n" ++
        (str "To: " ++ (Spec.render t ++ 10 :: rest)) =
        str "From:" ++ (Spec.render m.From ++ 10 ::
          (str "To: " ++ (Spec.render t ++ 10 :: rest))) := by
      simp only [List.append_assoc, str_lf, List.singleton_append]
    rw [e, occurrences_skip a p _ hfrom,
      occurrences_render _ hp h32 h60 h62 10 h10 m.From hfn hfe, h2]

/-- Every hexadecimal digit written is in the digit table. -/
theorem hexEncode_bytes (src : Bytes) (c : UInt8) (h : c ∈ hexEncode src) : c ∈ hextable := by
  have hd : ∀ i : Fin 16, hextable.getD i.val 0 ∈ hextable := by decide
  unfold hexEncode at h
  simp only [List.mem_flatMap, List.mem_cons, List.mem_singleton, List.not_mem_nil,
    or_false] at h
  obtain ⟨v, _, rfl | rfl⟩ := h
  · exact hd ⟨v.toNat / 16, by have := v.toNat_lt; omega⟩
  · exact hd ⟨v.toNat % 16, Nat.mod_lt _ (by decide)⟩

/-- The text of a token consists of hexadecimal digits and dashes. -/
theorem String_bytes (u : UUID) (c : UInt8) (h : c ∈ u.String) : c ∈ hextable ∨ c = 45 := by
  unfold UUID.String at h
  simp only [List.mem_append, List.mem_singleton] at h
  rcases h with (((((((h | h) | h) | h) | h) | h) | h) | h) | h <;>
    first | exact Or.inl (hexEncode_bytes _ c h) | exact Or.inr h

/-- Hexadecimal text has two digits per byte. -/
theorem hexEncode_length (src : Bytes) : (hexEncode src).length = 2 * src.length := by
  induction src with
  | nil => rfl
  | cons v vs ih =>
    have : hexEncode (v :: vs) =
        hextable.getD (v.toNat / 16) 0 :: hextable.getD (v.toNat % 16) 0 :: hexEncode vs := rfl
    rw [this]
    simp only [List.length_cons, ih]
    omega

/-- The text of a token has 36 bytes. -/
theorem String_length (u : UUID) : u.String.length = 36 := by
  unfold UUID.String
  simp only [List.length_append, hexEncode_length, List.length_take, List.length_drop,
    List.length_singleton, u.size]
  rfl

/-- A byte that is no hexadecimal digit and no dash is not in the text of a token. -/
theorem String_lacks (u : UUID) (c : UInt8) (h1 : c ∉ hextable) (h2 : c ≠ 45) :
    c ∉ u.String := fun h => (String_bytes u c h).elim h1 h2

/-- The fixed lines after the To line of a minimal message hold no token. -/
theorem occurrences_token_tail (u : UUID) :
    occurrences u.String
      (str "Subject: \nMIME-Version: 1.0\nContent-Type: text/html; charset=utf-8\n") = 0 := by
  have hp : u.String ≠ [] := by
    intro h; have := String_length u; rw [h] at this; simp at this
  have h10 : (10 : UInt8) ∉ u.String := String_lacks u 10 (by decide) (by decide)
  have h32 : (32 : UInt8) ∉ u.String := String_lacks u 32 (by decide) (by decide)
  have e : str "Subject: \nMIME-Version: 1.0\nContent-Type: text/html; charset=utf-8\n" =
      str "Subject: " ++ 10 :: (str "MIME-Version: 1.0" ++ 10 :: (str "Content-Type:" ++ 32 ::
        (str "text/html;" ++ 32 :: (str "charset=utf-8" ++ 10 :: [])))) := rfl
  have hl := String_length u
  rw [e, occurrences_append_sep _ hp 10 h10, occurrences_append_sep _ hp 10 h10,
    occurrences_append_sep _ hp 32 h32, occurrences_append_sep _ hp 32 h32,
    occurrences_append_sep _ hp 10 h10,
    occurrences_short _ (str "Subject: ") (by rw [hl]; decide),
    occurrences_short _ (str "MIME-Version: 1.0") (by rw [hl]; decide),
    occurrences_short _ (str "Content-Type:") (by rw [hl]; decide),
    occurrences_short _ (str "text/html;") (by rw [hl]; decide),
    occurrences_short _ (str "charset=utf-8") (by rw [hl]; decide),
    occurrences_short _ [] (by rw [hl]; decide)]

set_option maxRecDepth 16384 in
/-- The claim on minimal messages as the spec words it fails at `echoMessage`: the To line
repeats the recipient email, so `Content-Type:` occurs twice in the output, the first time
at the start of a line of its own. -/
theorem minimal_message_echo :
    ¬ (occurrences (str "Content-Type:") (echoMessage.bytes sampleWorld).1.1 = 1 ∧
      ¬ sampleUUID.String <:+: (echoMessage.bytes sampleWorld).1.1) ∧
    occurrences (str "Content-Type:") (echoMessage.bytes sampleWorld).1.1 = 2 ∧
    str "Content-Type: text/plain" ∈ lines (echoMessage.bytes sampleWorld).1.1 := by
  decide

/-- C11, amended. Minimal message: for a message with exactly one To address, no Cc, an
empty subject, no body and no attachment or inline, whose sender and recipient names and
emails contain neither `Content-Type:` nor the text of the token drawn for the call, the
output of `Message.bytes` contains `Content-Type:` exactly once, in its last line, the
text/html header, and does not contain the token. -/
theorem minimal_message (m : Message) (w : World) (v1 : UUID) (t : Address)
    (htok : w.uuidResults w.uuidCalls = .ok v1)
    (hto : m.To = [t]) (hcc : m.Cc = []) (hsub : m.Subject = []) (hbody : m.Body = none)
    (hatt : m.attachments.entries = []) (hinl : m.inlines.entries = [])
    (hct : ∀ x ∈ [m.From.Name, m.From.Email, t.Name, t.Email], ¬ str "Content-Type:" <:+: x)
    (htk : ∀ x ∈ [m.From.Name, m.From.Email, t.Name, t.Email], ¬ v1.String <:+: x) :
    occurrences (str "Content-Type:") (m.bytes w).1.1 = 1 ∧
      str "Content-Type: text/html; charset=utf-8\n" <:+ (m.bytes w).1.1 ∧
      ¬ v1.String <:+: (m.bytes w).1.1 := by
  rw [bytes_ok m w v1 htok]
  simp only [output_minimal m t _ _ _ hto hcc hsub hbody hatt hinl]
  simp only [List.mem_cons, List.mem_singleton, List.not_mem_nil, or_false, forall_eq_or_imp,
    forall_eq] at hct htk
  refine ⟨?_, ?_, ?_⟩
  · have e : str "Content-Type:" = 67 :: str "ontent-Type:" := rfl
    rw [e] at hct ⊢
    rw [occurrences_minimal 67 _ (by decide) (by decide) (by decide) (by decide) (by decide)
      (by decide) m t hct.1 hct.2.1 hct.2.2.1 hct.2.2.2]
    decide
  · refine ⟨Spec.fromLine m ++ (str "To: " ++ (Spec.render t ++
      str "\nSubject: \nMIME-Version: 1.0\n")), ?_⟩
    simp only [List.append_assoc]
    rfl
  · have hl := String_length v1
    have hlack : ∀ c : UInt8, c ∉ hextable → c ≠ 45 → c ∉ v1.String :=
      fun c => String_lacks v1 c
    cases hB : v1.String with
    | nil => rw [hB] at hl; simp at hl
    | cons a p =>
      rw [hB] at htk hlack
      have ha : a ∈ hextable ∨ a = 45 := String_bytes v1 a (by rw [hB]; simp)
      have hfrom : a ∉ str "From:" := by
        rcases ha with ha | rfl
        · intro h
          have hall : ∀ c ∈ str "From:", c ∉ hextable := by decide
          exact hall a h ha
        · decide
      have hto2 : a ∉ str "To: " := by
        rcases ha with ha | rfl
        · intro h
          have hall : ∀ c ∈ str "To: ", c ∉ hextable := by decide
          exact hall a h ha
        · decide
      rw [← occurrences_pos_iff _ (by simp),
        occurrences_minimal a p (hlack 32 (by decide) (by decide))
          (hlack 60 (by decide) (by decide)) (hlack 62 (by decide) (by decide))
          (hlack 10 (by decide) (by decide)) hfrom hto2 m t htk.1 htk.2.1 htk.2.2.1 htk.2.2.2,
        ← hB, occurrences_token_tail v1]
      decide

/-- The minimal message `minimalMessage` serialized in `sampleWorld`. -/
theorem minimal_message_witness :
    sampleWorld.uuidResults sampleWorld.uuidCalls = .ok sampleUUID ∧
    minimalMessage.To = [{ Email := str "b@x", Name := [] }] ∧ minimalMessage.Cc = [] ∧
    minimalMessage.Subject = [] ∧ minimalMessage.Body = none ∧
    minimalMessage.attachments.entries = [] ∧ minimalMessage.inlines.entries = [] ∧
    (∀ x ∈ [minimalMessage.From.Name, minimalMessage.From.Email, [], str "b@x"],
      ¬ str "Content-Type:" <:+: x) ∧
    (∀ x ∈ [minimalMessage.From.Name, minimalMessage.From.Email, [], str "b@x"],
      ¬ sampleUUID.String <:+: x) ∧
    (occurrences (str "Content-Type:") (minimalMessage.bytes sampleWorld).1.1 = 1 ∧
      str "Content-Type: text/html; charset=utf-8\n" <:+ (minimalMessage.bytes sampleWorld).1.1 ∧
      ¬ sampleUUID.String <:+: (minimalMessage.bytes sampleWorld).1.1) :=
  ⟨rfl, rfl, rfl, rfl, rfl, rfl, rfl, by decide, by decide,
    minimal_message minimalMessage sampleWorld sampleUUID { Email := str "b@x", Name := [] }
      rfl rfl rfl rfl rfl rfl rfl (by decide) (by decide)⟩

/-! ### Repeated serialization (C12) -/

/-- Reading the body stream changes neither the header block nor the maps, and leaves no
body bytes. -/
theorem drained_facts (m : Message) :
    Spec.headerBlock (Spec.drained m) = Spec.headerBlock m ∧ Spec.body (Spec.drained m) = [] ∧
      (Spec.drained m).attachments = m.attachments ∧ (Spec.drained m).inlines = m.inlines := by
  refine ⟨rfl, ?_, rfl, rfl⟩
  unfold Spec.body Spec.drained
  cases m.Body <;> rfl

/-- The output for a message whose body stream has been read is the output for the
message without body stream. -/
theorem output_drained (m : Message) (B : Bytes) (oa : List (Bytes × Bytes))
    (oi : List (Bytes × inline)) :
    Spec.output (Spec.drained m) B oa oi = Spec.output { m with Body := none } B oa oi := by
  have h := (drained_facts m).2.1
  unfold Spec.output
  rw [h]
  rfl

/-- The claim on repeated serialization as the spec words it fails at `plainMessage`,
whose body stream delivers `<p>`: with two distinct tokens, the second of two consecutive
calls does not write the output laid out for the message, whatever the order of parts. -/
theorem repeated_serialization_body :
    sampleUUID.String ≠ sampleUUID2.String ∧
    ¬ ∃ (oa : List (Bytes × Bytes)) (oi : List (Bytes × inline)),
      ((plainMessage.bytes twoTokenWorld).2.1.bytes (plainMessage.bytes twoTokenWorld).2.2).1.1 =
        Spec.output plainMessage sampleUUID2.String oa oi := by
  refine ⟨by decide, ?_⟩
  rintro ⟨oa, oi, h⟩
  have e : Spec.output plainMessage sampleUUID2.String oa oi =
      str "From:A <a@x>\nTo: b@x\nSubject: s\nMIME-Version: 1.0\nContent-Type: text/html; charset=utf-8\n<p>" := by
    rfl
  rw [e] at h
  exact absurd h (by decide)

/-- C12, amended. Repeated serialization: two consecutive `Message.bytes` calls on a
message, the token source answering `v1` and then `v2`, write the layout of the message
for `v1` and the layout of the message without body stream for `v2`, each over orderings
that list every attachment and every inline entry once: the header block and the set of
parts are the same, the token and the order of parts may differ, and the second output
has no body bytes, the first call having read the stream to its end. -/
theorem repeated_serialization (m : Message) (w : World) (v1 v2 : UUID)
    (h1 : w.uuidResults w.uuidCalls = .ok v1)
    (h2 : w.uuidResults (w.uuidCalls + 1) = .ok v2) :
    ∃ (oa1 oa2 : List (Bytes × Bytes)) (oi1 oi2 : List (Bytes × inline)),
      oa1.Perm m.attachments.entries ∧ oa2.Perm m.attachments.entries ∧
      oi1.Perm m.inlines.entries ∧ oi2.Perm m.inlines.entries ∧
      (m.bytes w).1 = (Spec.output m v1.String oa1 oi1, none) ∧
      ((m.bytes w).2.1.bytes (m.bytes w).2.2).1 =
        (Spec.output { m with Body := none } v2.String oa2 oi2, none) ∧
      Spec.headerBlock { m with Body := none } = Spec.headerBlock m ∧
      Spec.body { m with Body := none } = [] := by
  have h2b : (Spec.afterBytes m w).uuidResults (Spec.afterBytes m w).uuidCalls = .ok v2 := h2
  refine ⟨attachmentOrder m w, attachmentOrder (Spec.drained m) (Spec.afterBytes m w),
    inlineOrder m w, inlineOrder (Spec.drained m) (Spec.afterBytes m w),
    shuffle_perm _ _, shuffle_perm _ _, shuffle_perm _ _, shuffle_perm _ _, ?_, ?_, rfl, rfl⟩
  · rw [bytes_ok m w v1 h1]
  · rw [bytes_ok m w v1 h1]
    simp only []
    rw [bytes_ok (Spec.drained m) (Spec.afterBytes m w) v2 h2b, output_drained]

/-- Two serializations of `attachedMessage` in `twoTokenWorld`. -/
theorem repeated_serialization_witness :
    twoTokenWorld.uuidResults twoTokenWorld.uuidCalls = .ok sampleUUID ∧
    twoTokenWorld.uuidResults (twoTokenWorld.uuidCalls + 1) = .ok sampleUUID2 ∧
    ∃ (oa1 oa2 : List (Bytes × Bytes)) (oi1 oi2 : List (Bytes × inline)),
      oa1.Perm attachedMessage.attachments.entries ∧
      oa2.Perm attachedMessage.attachments.entries ∧
      oi1.Perm attachedMessage.inlines.entries ∧ oi2.Perm attachedMessage.inlines.entries ∧
      (attachedMessage.bytes twoTokenWorld).1 =
        (Spec.output attachedMessage sampleUUID.String oa1 oi1, none) ∧
      ((attachedMessage.bytes twoTokenWorld).2.1.bytes
          (attachedMessage.bytes twoTokenWorld).2.2).1 =
        (Spec.output { attachedMessage with Body := none } sampleUUID2.String oa2 oi2, none) ∧
      Spec.headerBlock { attachedMessage with Body := none } =
        Spec.headerBlock attachedMessage ∧
      Spec.body { attachedMessage with Body := none } = [] :=
  ⟨rfl, rfl, repeated_serialization attachedMessage twoTokenWorld sampleUUID sampleUUID2 rfl rfl⟩

/-! ### Attaching content (C13, C14, C18) -/

/-- What `Attach` returns and leaves when the source is read to the end. -/
theorem Attach_ok (m : Message) (name : Bytes) (reader : Reader)
    (hread : reader.failure = none) :
    m.Attach name reader =
      (none, Spec.withAttachment m name reader.pending, { reader with pending := [] }) := by
  unfold Message.Attach Spec.withAttachment
  simp only [ReadAll, hread, Option.map]
  cases hi : m.attachments <;> simp [GoMap.assign, GoMap.entries, hi]

/-- What `Attach` returns and leaves when reading the source fails: the attachments map
has been made, with the entries it had. -/
theorem Attach_fail (m : Message) (name : Bytes) (reader : Reader) (code : Nat)
    (hread : reader.failure = some code) :
    m.Attach name reader =
      (some (.foreign code), { m with attachments := some m.attachments.entries },
        { reader with pending := [] }) := by
  unfold Message.Attach
  simp only [ReadAll, hread, Option.map]
  rcases m with ⟨f, t, c, b, s, bd, _ | es, inl⟩ <;> rfl

/-- What `InlineAttach` returns and leaves when its second token draw fails: the inlines
map has been made, with the entries it had, and the source has not been read. -/
theorem InlineAttach_token_fail (m : Message) (name : Bytes) (reader : Reader) (w : World)
    (code : Nat) (htok : w.uuidResults (w.uuidCalls + 1) = .error code) :
    m.InlineAttach name reader w =
      (([], some (.foreign code)), { m with inlines := some m.inlines.entries }, reader,
        { w with uuidCalls := w.uuidCalls + 1 + 1 }) := by
  unfold Message.InlineAttach
  simp only [NewUUID, htok]
  rcases m with ⟨f, t, c, b, s, bd, att, _ | es⟩ <;> rfl

/-- What `InlineAttach` returns and leaves when its second token draw succeeds and
reading the source fails: the inlines map has been made, with the entries it had. -/
theorem InlineAttach_read_fail (m : Message) (name : Bytes) (reader : Reader) (w : World)
    (v1 : UUID) (code : Nat) (htok : w.uuidResults (w.uuidCalls + 1) = .ok v1)
    (hread : reader.failure = some code) :
    m.InlineAttach name reader w =
      (([], some (.foreign code)), { m with inlines := some m.inlines.entries },
        { reader with pending := [] }, { w with uuidCalls := w.uuidCalls + 1 + 1 }) := by
  unfold Message.InlineAttach
  simp only [NewUUID, ReadAll, htok, hread, Option.map]
  rcases m with ⟨f, t, c, b, s, bd, att, _ | es⟩ <;> rfl

/-- Entries under other names are found as before among the entries not under `name`. -/
theorem find_filter_ne {V : Type} (es : List (Bytes × V)) (name k : Bytes) (hk : k ≠ name) :
    (es.filter (fun e => e.1 ≠ name)).find? (fun e => e.1 = k) =
      es.find? (fun e => e.1 = k) := by
  induction es with
  | nil => rfl
  | cons e es ih =>
    by_cases h1 : e.1 = name
    · have h2 : ¬ e.1 = k := fun h => hk (h.symm.trans h1)
      rw [List.filter_cons_of_neg (by simpa using h1),
        List.find?_cons_of_neg _ (by simpa using h2)]
      exact ih
    · rw [List.filter_cons_of_pos (by simpa using h1)]
      by_cases h2 : e.1 = k
      · rw [List.find?_cons_of_pos _ (by simpa using h2),
          List.find?_cons_of_pos _ (by simpa using h2)]
      · rw [List.find?_cons_of_neg _ (by simpa using h2),
          List.find?_cons_of_neg _ (by simpa using h2)]
        exact ih

/-- C13. Attach stores and overwrites: with a source that is read to the end, delivering
`v`, `Attach(name, source)` succeeds; afterwards the attachments map holds exactly one
entry under `name`, with content `v`, every entry under another name is as before, and the
inlines, the addresses, the subject and the body stream are as before. Attaching under
the same name once more leaves one entry, holding the second content. -/
theorem attach_stores (m : Message) (name : Bytes) (reader : Reader)
    (hread : reader.failure = none) :
    (m.Attach name reader).1 = none ∧
    (m.Attach name reader).2.1.attachments.lookup name = some reader.pending ∧
    (m.Attach name reader).2.1.attachments.entries.filter (fun e => e.1 = name) =
      [(name, reader.pending)] ∧
    (m.Attach name reader).2.1.attachments.entries.filter (fun e => e.1 ≠ name) =
      m.attachments.entries.filter (fun e => e.1 ≠ name) ∧
    (∀ k, k ≠ name →
      (m.Attach name reader).2.1.attachments.lookup k = m.attachments.lookup k) ∧
    (m.Attach name reader).2.1.inlines = m.inlines ∧
    (m.Attach name reader).2.1.From = m.From ∧ (m.Attach name reader).2.1.To = m.To ∧
    (m.Attach name reader).2.1.Cc = m.Cc ∧ (m.Attach name reader).2.1.Bcc = m.Bcc ∧
    (m.Attach name reader).2.1.Subject = m.Subject ∧
    (m.Attach name reader).2.1.Body = m.Body ∧
    (∀ second : Reader, second.failure = none →
      ((m.Attach name reader).2.1.Attach name second).2.1.attachments.entries.filter
          (fun e => e.1 = name) = [(name, second.pending)] ∧
      ((m.Attach name reader).2.1.Attach name second).2.1.attachments.entries.filter
          (fun e => e.1 ≠ name) = m.attachments.entries.filter (fun e => e.1 ≠ name)) := by
  have hone : ∀ (es : List (Bytes × Bytes)) (v : Bytes),
      ((name, v) :: es.filter (fun x => x.1 ≠ name)).filter (fun e => e.1 = name) =
        [(name, v)] := by
    intro es v
    simp [List.filter_cons, List.filter_filter]
  have hrest : ∀ (es : List (Bytes × Bytes)) (v : Bytes),
      ((name, v) :: es.filter (fun x => x.1 ≠ name)).filter (fun e => e.1 ≠ name) =
        es.filter (fun e => e.1 ≠ name) := by
    intro es v
    simp [List.filter_cons, List.filter_filter]
  rw [Attach_ok m name reader hread]
  refine ⟨rfl, ?_, ?_, ?_, ?_, rfl, rfl, rfl, rfl, rfl, rfl, rfl, ?_⟩
  · simp [GoMap.lookup, GoMap.entries, Spec.withAttachment]
  · exact hone _ _
  · exact hrest _ _
  · intro k hk
    simp only [GoMap.lookup, GoMap.entries, Spec.withAttachment]
    rw [List.find?_cons_of_neg _ (by simpa using Ne.symm hk), find_filter_ne _ name k hk]
  · intro second hsecond
    simp only []
    rw [Attach_ok _ name second hsecond]
    refine ⟨hone _ _, ?_⟩
    simp only [Spec.withAttachment, GoMap.entries]
    rw [hrest, hrest]

/-- Attaching `png` under `a.txt` to `attachedMessage`, which holds `hi` under that
name. -/
theorem attach_stores_witness :
    logoReader.failure = none ∧
    ((attachedMessage.Attach (str "a.txt") logoReader).1 = none ∧
    (attachedMessage.Attach (str "a.txt") logoReader).2.1.attachments.lookup (str "a.txt") =
      some logoReader.pending ∧
    (attachedMessage.Attach (str "a.txt") logoReader).2.1.attachments.entries.filter
        (fun e => e.1 = str "a.txt") = [(str "a.txt", logoReader.pending)] ∧
    (attachedMessage.Attach (str "a.txt") logoReader).2.1.attachments.entries.filter
        (fun e => e.1 ≠ str "a.txt") =
      attachedMessage.attachments.entries.filter (fun e => e.1 ≠ str "a.txt") ∧
    (∀ k, k ≠ str "a.txt" →
      (attachedMessage.Attach (str "a.txt") logoReader).2.1.attachments.lookup k =
        attachedMessage.attachments.lookup k) ∧
    (attachedMessage.Attach (str "a.txt") logoReader).2.1.inlines = attachedMessage.inlines ∧
    (attachedMessage.Attach (str "a.txt") logoReader).2.1.From = attachedMessage.From ∧
    (attachedMessage.Attach (str "a.txt") logoReader).2.1.To = attachedMessage.To ∧
    (attachedMessage.Attach (str "a.txt") logoReader).2.1.Cc = attachedMessage.Cc ∧
    (attachedMessage.Attach (str "a.txt") logoReader).2.1.Bcc = attachedMessage.Bcc ∧
    (attachedMessage.Attach (str "a.txt") logoReader).2.1.Subject = attachedMessage.Subject ∧
    (attachedMessage.Attach (str "a.txt") logoReader).2.1.Body = attachedMessage.Body ∧
    (∀ second : Reader, second.failure = none →
      ((attachedMessage.Attach (str "a.txt") logoReader).2.1.Attach (str "a.txt")
          second).2.1.attachments.entries.filter (fun e => e.1 = str "a.txt") =
        [(str "a.txt", second.pending)] ∧
      ((attachedMessage.Attach (str "a.txt") logoReader).2.1.Attach (str "a.txt")
          second).2.1.attachments.entries.filter (fun e => e.1 ≠ str "a.txt") =
        attachedMessage.attachments.entries.filter (fun e => e.1 ≠ str "a.txt"))) :=
  ⟨rfl, attach_stores attachedMessage (str "a.txt") logoReader rfl⟩

/-- C14. Content-read failure is atomic: when the source cannot be read to the end,
`Attach` returns that read failure, and `InlineAttach`, which reads the source once its
token draw has answered, returns that read failure with an empty identifier; the entries
of the attachments map and of the inlines map are what they were before the call. When
the token draw of `InlineAttach` fails the source is not read at all: the call then
returns the failure of the draw, again with an empty identifier and the entries as they
were. -/
theorem read_failure_atomic (m : Message) (name : Bytes) (reader : Reader) (code : Nat)
    (hread : reader.failure = some code) :
    ((m.Attach name reader).1 = some (.foreign code) ∧
      (m.Attach name reader).2.1.attachments.entries = m.attachments.entries ∧
      (m.Attach name reader).2.1.inlines.entries = m.inlines.entries) ∧
    ∀ w : World,
      (m.InlineAttach name reader w).1.1 = [] ∧
      (∀ v1, w.uuidResults (w.uuidCalls + 1) = .ok v1 →
        (m.InlineAttach name reader w).1.2 = some (.foreign code)) ∧
      (∀ tcode, w.uuidResults (w.uuidCalls + 1) = .error tcode →
        (m.InlineAttach name reader w).1.2 = some (.foreign tcode) ∧
        (m.InlineAttach name reader w).2.2.1 = reader) ∧
      (m.InlineAttach name reader w).2.1.inlines.entries = m.inlines.entries ∧
      (m.InlineAttach name reader w).2.1.attachments.entries = m.attachments.entries := by
  refine ⟨?_, fun w => ?_⟩
  · rw [Attach_fail m name reader code hread]
    exact ⟨rfl, rfl, rfl⟩
  · cases htok : w.uuidResults (w.uuidCalls + 1) with
    | error tcode =>
      rw [InlineAttach_token_fail m name reader w tcode htok]
      refine ⟨rfl, fun v1 h => (by cases h), fun t h => ?_, rfl, rfl⟩
      cases h
      exact ⟨rfl, rfl⟩
    | ok v1 =>
      rw [InlineAttach_read_fail m name reader w v1 code htok hread]
      exact ⟨rfl, fun _ _ => rfl, fun t h => (by cases h), rfl, rfl⟩

/-- The source `brokenReader` attached to `richMessage`; in `sampleWorld` the token draw
answers, the source is read and the read failure is returned. -/
theorem read_failure_atomic_witness :
    brokenReader.failure = some 5 ∧
    sampleWorld.uuidResults (sampleWorld.uuidCalls + 1) = .ok sampleUUID ∧
    (richMessage.InlineAttach (str "a.txt") brokenReader sampleWorld).1 =
      ([], some (.foreign 5)) ∧
    (((richMessage.Attach (str "a.txt") brokenReader).1 = some (.foreign 5) ∧
      (richMessage.Attach (str "a.txt") brokenReader).2.1.attachments.entries =
        richMessage.attachments.entries ∧
      (richMessage.Attach (str "a.txt") brokenReader).2.1.inlines.entries =
        richMessage.inlines.entries) ∧
    ∀ w : World,
      (richMessage.InlineAttach (str "a.txt") brokenReader w).1.1 = [] ∧
      (∀ v1, w.uuidResults (w.uuidCalls + 1) = .ok v1 →
        (richMessage.InlineAttach (str "a.txt") brokenReader w).1.2 = some (.foreign 5)) ∧
      (∀ tcode, w.uuidResults (w.uuidCalls + 1) = .error tcode →
        (richMessage.InlineAttach (str "a.txt") brokenReader w).1.2 = some (.foreign tcode) ∧
        (richMessage.InlineAttach (str "a.txt") brokenReader w).2.2.1 = brokenReader) ∧
      (richMessage.InlineAttach (str "a.txt") brokenReader w).2.1.inlines.entries =
        richMessage.inlines.entries ∧
      (richMessage.InlineAttach (str "a.txt") brokenReader w).2.1.attachments.entries =
        richMessage.attachments.entries) :=
  ⟨rfl, rfl, by decide, read_failure_atomic richMessage (str "a.txt") brokenReader 5 rfl⟩

/-- C18. Discarded token in `InlineAttach`: every call draws from the token source exactly
twice; what the first draw answers has no influence on the identifier, the error, the
message or the source; when the second draw fails the call returns that failure with an
empty identifier, does not read the source and leaves the inlines entries as they were;
when it succeeds the source is read, the error is the read's, and after a complete read
the identifier returned and stored under `name` is the text of the second token. -/
theorem inline_attach_tokens (m : Message) (name : Bytes) (reader : Reader) (w : World) :
    (m.InlineAttach name reader w).2.2.2.uuidCalls = w.uuidCalls + 2 ∧
    (∀ first : Except Nat UUID,
      (m.InlineAttach name reader
          { w with uuidResults := Function.update w.uuidResults w.uuidCalls first }).1 =
        (m.InlineAttach name reader w).1 ∧
      (m.InlineAttach name reader
          { w with uuidResults := Function.update w.uuidResults w.uuidCalls first }).2.1 =
        (m.InlineAttach name reader w).2.1 ∧
      (m.InlineAttach name reader
          { w with uuidResults := Function.update w.uuidResults w.uuidCalls first }).2.2.1 =
        (m.InlineAttach name reader w).2.2.1) ∧
    (∀ code, w.uuidResults (w.uuidCalls + 1) = .error code →
      (m.InlineAttach name reader w).1 = ([], some (.foreign code)) ∧
      (m.InlineAttach name reader w).2.2.1 = reader ∧
      (m.InlineAttach name reader w).2.1.inlines.entries = m.inlines.entries) ∧
    (∀ v1, w.uuidResults (w.uuidCalls + 1) = .ok v1 →
      (m.InlineAttach name reader w).2.2.1 = { reader with pending := [] } ∧
      (m.InlineAttach name reader w).1.2 = reader.failure.map Error.foreign ∧
      (reader.failure = none →
        (m.InlineAttach name reader w).1.1 = v1.String ∧
        (m.InlineAttach name reader w).2.1.inlines.lookup name =
          some { attachment := reader.pending, uuid := v1.String })) := by
  have hsame : ∀ first : Except Nat UUID,
      Function.update w.uuidResults w.uuidCalls first (w.uuidCalls + 1) =
        w.uuidResults (w.uuidCalls + 1) :=
    fun first => Function.update_noteq (by omega) _ _
  cases htok : w.uuidResults (w.uuidCalls + 1) with
  | error code =>
    refine ⟨?_, fun first => ?_, fun c h => ?_, fun v h => (by cases h)⟩
    · rw [InlineAttach_token_fail m name reader w code htok]
    · rw [InlineAttach_token_fail m name reader w code htok,
        InlineAttach_token_fail m name reader _ code ((hsame first).trans htok)]
      exact ⟨rfl, rfl, rfl⟩
    · cases h
      rw [InlineAttach_token_fail m name reader w code htok]
      exact ⟨rfl, rfl, rfl⟩
  | ok v1 =>
    rcases reader with ⟨pending, _ | rcode⟩
    · have hread : ({ pending := pending, failure := none } : Reader).failure = none := rfl
      refine ⟨?_, fun first => ?_, fun c h => (by cases h), fun v h => ?_⟩
      · rw [InlineAttach_ok m name _ w v1 htok hread]
      · rw [InlineAttach_ok m name _ w v1 htok hread,
          InlineAttach_ok m name _ _ v1 ((hsame first).trans htok) hread]
        exact ⟨rfl, rfl, rfl⟩
      · cases h
        rw [InlineAttach_ok m name _ w v1 htok hread]
        refine ⟨rfl, rfl, fun _ => ⟨rfl, ?_⟩⟩
        simp [GoMap.lookup, GoMap.entries, Spec.withInline]
    · have hread : ({ pending := pending, failure := some rcode } : Reader).failure =
          some rcode := rfl
      refine ⟨?_, fun first => ?_, fun c h => (by cases h), fun v h => ?_⟩
      · rw [InlineAttach_read_fail m name _ w v1 rcode htok hread]
      · rw [InlineAttach_read_fail m name _ w v1 rcode htok hread,
          InlineAttach_read_fail m name _ _ v1 rcode ((hsame first).trans htok) hread]
        exact ⟨rfl, rfl, rfl⟩
      · cases h
        rw [InlineAttach_read_fail m name _ w v1 rcode htok hread]
        exact ⟨rfl, rfl, fun h => by cases h⟩

/-! ### Failure of serialization (C15) and validation before it (C20) -/

/-- C15. Serialization fails only on token failure: `Message.bytes` returns a failure
exactly when the token draw fails, and then no bytes; whenever the token draw succeeds it
returns the laid-out bytes and no failure, whatever the addresses, the subject, the maps
and the body stream, a stream that ends in a read failure included. -/
theorem serialization_failure (m : Message) (w : World) :
    ((m.bytes w).1.2 ≠ none ↔ ∃ code, w.uuidResults w.uuidCalls = .error code) ∧
    ((m.bytes w).1.2 ≠ none → (m.bytes w).1.1 = []) ∧
    (∀ v1, w.uuidResults w.uuidCalls = .ok v1 →
      (m.bytes w).1 =
        (Spec.output m v1.String (attachmentOrder m w) (inlineOrder m w), none)) := by
  cases htok : w.uuidResults w.uuidCalls with
  | error code =>
    rw [bytes_fail m w code htok]
    exact ⟨⟨fun _ => ⟨code, rfl⟩, fun _ => by simp⟩, fun _ => rfl, fun v h => by cases h⟩
  | ok v1 =>
    rw [bytes_ok m w v1 htok]
    refine ⟨⟨fun h => absurd rfl h, fun h => ?_⟩, fun h => absurd rfl h, fun v h => ?_⟩
    · obtain ⟨c, hc⟩ := h
      cases hc
    · cases h
      rfl

/-- C20. Validation precedes serialization: when `Send` rejects a message with the
missing-sender or the no-recipients error, it hands back the message and the world as
they were: no token has been drawn, no map walked, nothing sent, and the body stream has
not been read, so that the message with its envelope fixed is still serialized with all
the bytes of the body stream. -/
theorem validation_first (addr : Bytes) (auth : Auth) (m : Message) (w : World)
    (hrej : (Send addr auth m w).1 = some (.errorf "from is not set") ∨
      (Send addr auth m w).1 = some (.errorf "zero receivers")) :
    (Send addr auth m w).2.1 = m ∧ (Send addr auth m w).2.2 = w ∧
    (Send addr auth m w).2.2.uuidCalls = w.uuidCalls ∧
    (Send addr auth m w).2.1.Body = m.Body ∧
    ∀ (sender : Address) (tos : List Address) (w2 : World) (v2 : UUID),
      w2.uuidResults w2.uuidCalls = .ok v2 →
      Spec.body { (Send addr auth m w).2.1 with From := sender, To := tos } = Spec.body m ∧
      ({ (Send addr auth m w).2.1 with From := sender, To := tos }.bytes w2).1 =
        (Spec.output { m with From := sender, To := tos } v2.String
          (attachmentOrder m w2) (inlineOrder m w2), none) := by
  have key : (Send addr auth m w).2.1 = m ∧ (Send addr auth m w).2.2 = w := by
    by_cases hfrom : m.From.Email = []
    · rw [missing_sender_eq addr auth m w hfrom]
      exact ⟨rfl, rfl⟩
    · rw [Send_eq addr auth m w hfrom] at hrej ⊢
      by_cases hc : m.To.length + m.Cc.length + m.Bcc.length = 0
      · rw [if_pos hc]
        exact ⟨rfl, rfl⟩
      · exfalso
        rw [if_neg hc] at hrej
        cases htok : w.uuidResults w.uuidCalls with
        | error code =>
          rw [bytes_fail m w code htok] at hrej
          simp at hrej
        | ok v1 =>
          rw [bytes_ok m w v1 htok] at hrej
          simp [SendMail] at hrej
  rw [key.1, key.2]
  refine ⟨rfl, rfl, rfl, rfl, fun sender tos w2 v2 h2 => ⟨rfl, ?_⟩⟩
  rw [bytes_ok _ w2 v2 h2]
  rfl

/-! ### Base64 payloads (C16) -/

/-- A byte is the byte of its value. -/
theorem ofNat_toNat (a : UInt8) : UInt8.ofNat a.toNat = a := by
  apply UInt8.eq_of_toBitVec_eq
  apply BitVec.eq_of_toNat_eq
  rw [UInt8.toBitVec_eq_of_lt a.toNat_lt]
  rfl

/-- Decoding the byte of a 6-bit group gives the group back. -/
theorem decodeStdAt_encodeStdAt (n : Nat) : decodeStdAt (encodeStdAt n) = some (n % 64) := by
  have h : ∀ i : Fin 64, decodeStdAt (encodeStd.getD i.val 0) = some i.val := by decide
  exact h ⟨n % 64, Nat.mod_lt _ (by decide)⟩

/-- The byte of a 6-bit group is in the alphabet and is not the padding byte. -/
theorem encodeStdAt_alphabet (n : Nat) : encodeStdAt n ∈ encodeStd ∧ encodeStdAt n ≠ 61 := by
  have h : ∀ i : Fin 64, encodeStd.getD i.val 0 ∈ encodeStd ∧ encodeStd.getD i.val 0 ≠ 61 := by
    decide
  exact h ⟨n % 64, Nat.mod_lt _ (by decide)⟩

/-- A base64 payload has four bytes for every three bytes of content, the last group
filled up. -/
theorem base64Encode_length : ∀ v : Bytes, (base64Encode v).length = 4 * ((v.length + 2) / 3)
  | [] => rfl
  | [_] => by simp [base64Encode]
  | [_, _] => by simp [base64Encode]
  | a :: b :: c :: rest => by
    have ih := base64Encode_length rest
    simp only [base64Encode, List.length_cons, ih]
    omega

/-- A base64 payload consists of alphabet bytes and padding bytes. -/
theorem base64Encode_alphabet :
    ∀ (v : Bytes) (c : UInt8), c ∈ base64Encode v → c ∈ encodeStd ∨ c = 61
  | [], c, h => by simp [base64Encode] at h
  | [a], c, h => by
    simp only [base64Encode, List.mem_cons, List.mem_singleton, List.not_mem_nil, or_false] at h
    rcases h with rfl | rfl | rfl | rfl <;>
      first | exact Or.inl (encodeStdAt_alphabet _).1 | exact Or.inr rfl
  | [a, b], c, h => by
    simp only [base64Encode, List.mem_cons, List.mem_singleton, List.not_mem_nil, or_false] at h
    rcases h with rfl | rfl | rfl | rfl <;>
      first | exact Or.inl (encodeStdAt_alphabet _).1 | exact Or.inr rfl
  | a :: b :: d :: rest, c, h => by
    simp only [base64Encode, List.mem_cons] at h
    rcases h with rfl | rfl | rfl | rfl | h
    · exact Or.inl (encodeStdAt_alphabet _).1
    · exact Or.inl (encodeStdAt_alphabet _).1
    · exact Or.inl (encodeStdAt_alphabet _).1
    · exact Or.inl (encodeStdAt_alphabet _).1
    · exact base64Encode_alphabet rest c h

/-- Decoding a base64 payload gives the content back. -/
theorem base64Decode_base64Encode : ∀ v : Bytes, base64Decode (base64Encode v) = some v
  | [] => rfl
  | [a] => by
    have ha := a.toNat_lt
    have e : (a.toNat * 65536 / 262144 % 64 * 262144 + a.toNat * 65536 / 4096 % 64 * 4096) /
        65536 = a.toNat := by omega
    simp only [base64Encode, base64Decode, decodeStdAt_encodeStdAt, and_self, if_true, e,
      ofNat_toNat]
  | [a, b] => by
    have ha := a.toNat_lt
    have hb := b.toNat_lt
    have h3 := (encodeStdAt_alphabet ((a.toNat * 65536 + b.toNat * 256) / 64)).2
    have e1 : ((a.toNat * 65536 + b.toNat * 256) / 262144 % 64 * 262144 +
        (a.toNat * 65536 + b.toNat * 256) / 4096 % 64 * 4096 +
        (a.toNat * 65536 + b.toNat * 256) / 64 % 64 * 64) / 65536 = a.toNat := by omega
    have e2 : ((a.toNat * 65536 + b.toNat * 256) / 262144 % 64 * 262144 +
        (a.toNat * 65536 + b.toNat * 256) / 4096 % 64 * 4096 +
        (a.toNat * 65536 + b.toNat * 256) / 64 % 64 * 64) / 256 % 256 = b.toNat := by omega
    simp only [base64Encode, base64Decode, decodeStdAt_encodeStdAt, h3, false_and, if_false,
      and_self, if_true, e1, e2, ofNat_toNat]
  | a :: b :: c :: rest => by
    have ih := base64Decode_base64Encode rest
    have ha := a.toNat_lt
    have hb := b.toNat_lt
    have hc := c.toNat_lt
    have h3 := (encodeStdAt_alphabet ((a.toNat * 65536 + b.toNat * 256 + c.toNat) / 64)).2
    have h4 := (encodeStdAt_alphabet (a.toNat * 65536 + b.toNat * 256 + c.toNat)).2
    have e1 : ((a.toNat * 65536 + b.toNat * 256 + c.toNat) / 262144 % 64 * 262144 +
        (a.toNat * 65536 + b.toNat * 256 + c.toNat) / 4096 % 64 * 4096 +
        (a.toNat * 65536 + b.toNat * 256 + c.toNat) / 64 % 64 * 64 +
        (a.toNat * 65536 + b.toNat * 256 + c.toNat) % 64) / 65536 = a.toNat := by omega
    have e2 : ((a.toNat * 65536 + b.toNat * 256 + c.toNat) / 262144 % 64 * 262144 +
        (a.toNat * 65536 + b.toNat * 256 + c.toNat) / 4096 % 64 * 4096 +
        (a.toNat * 65536 + b.toNat * 256 + c.toNat) / 64 % 64 * 64 +
        (a.toNat * 65536 + b.toNat * 256 + c.toNat) % 64) / 256 % 256 = b.toNat := by omega
    have e3 : ((a.toNat * 65536 + b.toNat * 256 + c.toNat) / 262144 % 64 * 262144 +
        (a.toNat * 65536 + b.toNat * 256 + c.toNat) / 4096 % 64 * 4096 +
        (a.toNat * 65536 + b.toNat * 256 + c.toNat) / 64 % 64 * 64 +
        (a.toNat * 65536 + b.toNat * 256 + c.toNat) % 64) % 256 = c.toNat := by omega
    simp only [base64Encode, base64Decode, decodeStdAt_encodeStdAt, h3, h4, false_and, if_false,
      ih, e1, e2, e3, ofNat_toNat]

/-- The part of an attachment that is walked over lies in the multipart output. -/
theorem attachmentPart_within (m : Message) (B : Bytes) (oa : List (Bytes × Bytes))
    (oi : List (Bytes × inline)) (hm : m.attachments.len > 0 ∨ m.inlines.len > 0)
    (e : Bytes × Bytes) (he : e ∈ oa) :
    Spec.attachmentPart B e <:+: Spec.output m B oa oi := by
  obtain ⟨pre, post, hparts⟩ := part_within (Spec.attachmentPart B) e oa he
  simp only [Spec.output, if_pos hm, hparts, ← List.append_assoc]
  exact (List.infix_append _ _ _).trans
    ((List.prefix_append _ _).trans (List.prefix_append _ _)).isInfix

/-- The part of an inline that is walked over lies in the multipart output. -/
theorem inlinePart_within (m : Message) (B : Bytes) (oa : List (Bytes × Bytes))
    (oi : List (Bytes × inline)) (hm : m.attachments.len > 0 ∨ m.inlines.len > 0)
    (e : Bytes × inline) (he : e ∈ oi) :
    Spec.inlinePart B e <:+: Spec.output m B oa oi := by
  obtain ⟨pre, post, hparts⟩ := part_within (Spec.inlinePart B) e oi he
  simp only [Spec.output, if_pos hm, hparts, ← List.append_assoc]
  exact (List.infix_append _ _ _).trans (List.prefix_append _ _).isInfix

/-- A map with an entry has positive length. -/
theorem len_pos_of_mem {V : Type} (mp : GoMap V) (e : Bytes × V) (he : e ∈ mp.entries) :
    mp.len > 0 := by
  unfold GoMap.len
  exact List.length_pos_of_mem he

/-- C16. Unbroken base64 payload: whenever `Message.bytes` serializes a message, the part
of every attachment and of every inline entry ends with the blank line, the base64 text
of the entry's bytes and the line-feed and `--B` that follow it; and for bytes `v` of any
length that text has `4 * ceil(len(v) / 3)` bytes, all of them alphabet or padding bytes,
none a line-feed, and decodes to exactly `v`. -/
theorem unbroken_payload (m : Message) (w : World) (v1 : UUID)
    (htok : w.uuidResults w.uuidCalls = .ok v1) :
    (∀ e ∈ m.attachments.entries,
      (str "\"\n\n" ++ base64Encode e.2 ++ str "\n--" ++ v1.String) <:+: (m.bytes w).1.1) ∧
    (∀ e ∈ m.inlines.entries,
      (str "\"\n\n" ++ base64Encode e.2.attachment ++ str "\n--" ++ v1.String) <:+:
        (m.bytes w).1.1) ∧
    ∀ v : Bytes,
      (base64Encode v).length = 4 * ((v.length + 2) / 3) ∧
      (∀ c ∈ base64Encode v, c ∈ encodeStd ∨ c = 61) ∧
      (10 : UInt8) ∉ base64Encode v ∧
      base64Decode (base64Encode v) = some v := by
  rw [bytes_ok m w v1 htok]
  refine ⟨fun e he => ?_, fun e he => ?_, fun v => ⟨base64Encode_length v,
    base64Encode_alphabet v, fun h => (base64Encode_bytes v 10 h).2 rfl,
    base64Decode_base64Encode v⟩⟩
  · have hmem : e ∈ attachmentOrder m w := (shuffle_perm _ _).mem_iff.2 he
    refine List.IsInfix.trans ?_
      (attachmentPart_within m v1.String _ _ (Or.inl (len_pos_of_mem _ e he)) e hmem)
    refine (List.IsSuffix.isInfix ⟨str "\n\n--" ++ v1.String ++
      str "\nContent-Type: application/octet-stream\nContent-Transfer-Encoding: base64\nContent-Disposition: attachment; filename=\"" ++
      e.1, ?_⟩)
    simp only [Spec.attachmentPart, List.append_assoc]
  · have hmem : e ∈ inlineOrder m w := (shuffle_perm _ _).mem_iff.2 he
    refine List.IsInfix.trans ?_
      (inlinePart_within m v1.String _ _ (Or.inr (len_pos_of_mem _ e he)) e hmem)
    refine (List.IsSuffix.isInfix ⟨str "\n\n--" ++ v1.String ++
      str "\nContent-Type: application/octet-stream\nContent-Transfer-Encoding: base64\nContent-ID: <" ++
      e.2.uuid ++ str ">\nContent-Disposition: inline; filename=\"" ++ e.1, ?_⟩)
    simp only [Spec.inlinePart, List.append_assoc]

/-- The payloads of `richMessage` serialized in `sampleWorld`. -/
theorem unbroken_payload_witness :
    sampleWorld.uuidResults sampleWorld.uuidCalls = .ok sampleUUID ∧
    ((∀ e ∈ richMessage.attachments.entries,
      (str "\"\n\n" ++ base64Encode e.2 ++ str "\n--" ++ sampleUUID.String) <:+:
        (richMessage.bytes sampleWorld).1.1) ∧
    (∀ e ∈ richMessage.inlines.entries,
      (str "\"\n\n" ++ base64Encode e.2.attachment ++ str "\n--" ++ sampleUUID.String) <:+:
        (richMessage.bytes sampleWorld).1.1) ∧
    ∀ v : Bytes,
      (base64Encode v).length = 4 * ((v.length + 2) / 3) ∧
      (∀ c ∈ base64Encode v, c ∈ encodeStd ∨ c = 61) ∧
      (10 : UInt8) ∉ base64Encode v ∧
      base64Decode (base64Encode v) = some v) :=
  ⟨rfl, unbroken_payload richMessage sampleWorld sampleUUID rfl⟩

/-! ### Line-feed-only framing (C17) -/

/-- A rendered address has no carriage-return when its name and email have none. -/
theorem render_no_cr (a : Address) (hn : (13 : UInt8) ∉ a.Name) (he : (13 : UInt8) ∉ a.Email) :
    (13 : UInt8) ∉ Spec.render a := by
  unfold Spec.render
  split
  · exact he
  · simp only [List.mem_append, not_or]
    exact ⟨⟨⟨hn, by decide⟩, he⟩, by decide⟩

/-- Joined renderings have no carriage-return when no name and no email has one. -/
theorem joined_no_cr (as : List Address)
    (h : ∀ a ∈ as, (13 : UInt8) ∉ a.Name ∧ (13 : UInt8) ∉ a.Email) :
    (13 : UInt8) ∉ List.intercalate (str ";") (as.map Spec.render) := by
  rw [← Join_eq_intercalate]
  induction as with
  | nil => simp [Join]
  | cons a as ih =>
    have ha := h a (List.mem_cons_self a as)
    cases as with
    | nil => exact render_no_cr a ha.1 ha.2
    | cons b rest =>
      have ih2 := ih (fun x hx => h x (List.mem_cons_of_mem a hx))
      simp only [List.map_cons, Join, List.mem_append, not_or] at ih2 ⊢
      exact ⟨⟨render_no_cr a ha.1 ha.2, by decide⟩, ih2⟩

/-- A recipient line has no carriage-return when its label and its addresses have none. -/
theorem listLine_no_cr (label : Bytes) (hl : (13 : UInt8) ∉ label) (as : List Address)
    (h : ∀ a ∈ as, (13 : UInt8) ∉ a.Name ∧ (13 : UInt8) ∉ a.Email) :
    (13 : UInt8) ∉ Spec.listLine label as := by
  unfold Spec.listLine
  split
  · simp
  · simp only [List.mem_append, not_or]
    exact ⟨⟨hl, joined_no_cr as h⟩, by decide⟩

/-- The header block has no carriage-return when the sender, the To and Cc addresses and
the subject have none. -/
theorem headerBlock_no_cr (m : Message)
    (hfrom : (13 : UInt8) ∉ m.From.Name ∧ (13 : UInt8) ∉ m.From.Email)
    (hto : ∀ a ∈ m.To, (13 : UInt8) ∉ a.Name ∧ (13 : UInt8) ∉ a.Email)
    (hcc : ∀ a ∈ m.Cc, (13 : UInt8) ∉ a.Name ∧ (13 : UInt8) ∉ a.Email)
    (hsub : (13 : UInt8) ∉ m.Subject) : (13 : UInt8) ∉ Spec.headerBlock m := by
  have hf : (13 : UInt8) ∉ Spec.fromLine m := by
    unfold Spec.fromLine
    split
    · simp
    · simp only [List.mem_append, not_or]
      exact ⟨⟨by decide, render_no_cr m.From hfrom.1 hfrom.2⟩, by decide⟩
  unfold Spec.headerBlock
  simp only [List.mem_append, not_or]
  exact ⟨⟨⟨⟨⟨⟨hf, listLine_no_cr _ (by decide) m.To hto⟩, listLine_no_cr _ (by decide) m.Cc hcc⟩,
    by decide⟩, hsub⟩, by decide⟩, by decide⟩

/-- A base64 payload has no carriage-return. -/
theorem base64Encode_no_cr (v : Bytes) : (13 : UInt8) ∉ base64Encode v := by
  intro h
  rcases base64Encode_alphabet v 13 h with h1 | h1
  · exact absurd h1 (by decide)
  · exact absurd h1 (by decide)

/-- The written parts have no carriage-return when each of them has none. -/
theorem parts_no_cr {α : Type} (g : α → Bytes) (es : List α)
    (h : ∀ e ∈ es, (13 : UInt8) ∉ g e) : (13 : UInt8) ∉ (es.map g).flatten := by
  simp only [List.mem_flatten, List.mem_map, not_exists, not_and]
  rintro l ⟨e, he, rfl⟩
  exact h e he

set_option maxRecDepth 8192 in
/-- C17. Line-feed-only framing: when no carriage-return is in the sender's name and
email, the names and emails of To and Cc, the subject, the bytes of the body stream, the
attachment names and the inline names and content identifiers, the output of
`Message.bytes` has no carriage-return: the composer ends its lines with a line-feed
alone, and the token text and the base64 payloads have no carriage-return either. -/
theorem line_feed_only (m : Message) (w : World)
    (hfrom : (13 : UInt8) ∉ m.From.Name ∧ (13 : UInt8) ∉ m.From.Email)
    (haddr : ∀ a ∈ m.To ++ m.Cc, (13 : UInt8) ∉ a.Name ∧ (13 : UInt8) ∉ a.Email)
    (hsub : (13 : UInt8) ∉ m.Subject) (hbody : (13 : UInt8) ∉ Spec.body m)
    (hatt : ∀ e ∈ m.attachments.entries, (13 : UInt8) ∉ e.1)
    (hinl : ∀ e ∈ m.inlines.entries, (13 : UInt8) ∉ e.1 ∧ (13 : UInt8) ∉ e.2.uuid) :
    (13 : UInt8) ∉ (m.bytes w).1.1 := by
  cases htok : w.uuidResults w.uuidCalls with
  | error code =>
    rw [bytes_fail m w code htok]
    simp
  | ok v1 =>
    rw [bytes_ok m w v1 htok]
    have hB : (13 : UInt8) ∉ v1.String := String_lacks v1 13 (by decide) (by decide)
    have hH := headerBlock_no_cr m hfrom (fun a ha => haddr a (List.mem_append_left _ ha))
      (fun a ha => haddr a (List.mem_append_right _ ha)) hsub
    have hA : (13 : UInt8) ∉
        ((attachmentOrder m w).map (Spec.attachmentPart v1.String)).flatten := by
      apply parts_no_cr
      intro e he
      have he2 := hatt e ((shuffle_perm _ _).mem_iff.1 he)
      simp only [Spec.attachmentPart, List.mem_append, not_or]
      exact ⟨⟨⟨⟨⟨⟨⟨by decide, hB⟩, by decide⟩, he2⟩, by decide⟩, base64Encode_no_cr _⟩,
        by decide⟩, hB⟩
    have hI : (13 : UInt8) ∉
        ((inlineOrder m w).map (Spec.inlinePart v1.String)).flatten := by
      apply parts_no_cr
      intro e he
      have he2 := hinl e ((shuffle_perm _ _).mem_iff.1 he)
      simp only [Spec.inlinePart, List.mem_append, not_or]
      exact ⟨⟨⟨⟨⟨⟨⟨⟨⟨by decide, hB⟩, by decide⟩, he2.2⟩, by decide⟩, he2.1⟩, by decide⟩,
        base64Encode_no_cr _⟩, by decide⟩, hB⟩
    show (13 : UInt8) ∉ Spec.output m v1.String (attachmentOrder m w) (inlineOrder m w)
    unfold Spec.output
    split <;> simp only [List.mem_append, not_or] <;> repeat' apply And.intro
    all_goals first | assumption | decide

/-- The message `richMessage`, whose texts have no carriage-return, serialized in
`sampleWorld`. -/
theorem line_feed_only_witness :
    ((13 : UInt8) ∉ richMessage.From.Name ∧ (13 : UInt8) ∉ richMessage.From.Email) ∧
    (∀ a ∈ richMessage.To ++ richMessage.Cc,
      (13 : UInt8) ∉ a.Name ∧ (13 : UInt8) ∉ a.Email) ∧
    (13 : UInt8) ∉ richMessage.Subject ∧ (13 : UInt8) ∉ Spec.body richMessage ∧
    (∀ e ∈ richMessage.attachments.entries, (13 : UInt8) ∉ e.1) ∧
    (∀ e ∈ richMessage.inlines.entries, (13 : UInt8) ∉ e.1 ∧ (13 : UInt8) ∉ e.2.uuid) ∧
    (13 : UInt8) ∉ (richMessage.bytes sampleWorld).1.1 :=
  ⟨by decide, by decide, by decide, by decide, by decide, by decide,
    line_feed_only richMessage sampleWorld (by decide) (by decide) (by decide) (by decide)
      (by decide) (by decide)⟩

/-! ### Header injection (C19) -/

set_option maxRecDepth 16384 in
/-- C19. Header injection: header values are written as they are. The subject of every
message stands unchanged between `Subject: ` and the line-feed before `MIME-Version: 1.0`;
for the subject `hi`, line-feed, `X-Injected: 1` the output has the line `X-Injected: 1`
between the lines `Subject: hi` and `MIME-Version: 1.0`; a sender name and an attachment
file name holding line-feeds put the same line after `From:A` and after the
Content-Disposition line; the composer writes no such line for the message without these
texts. -/
theorem header_injection :
    (∀ (m : Message) (w : World) (v1 : UUID), w.uuidResults w.uuidCalls = .ok v1 →
      (str "Subject: " ++ m.Subject ++ str "\nMIME-Version: 1.0\n") <:+: (m.bytes w).1.1) ∧
    [str "Subject: hi", str "X-Injected: 1", str "MIME-Version: 1.0"] <:+:
      lines (injectedSubject.bytes sampleWorld).1.1 ∧
    [str "From:A", str "X-Injected: 1", str "X-From: A <a@x>"] <:+:
      lines (injectedName.bytes sampleWorld).1.1 ∧
    [str "Content-Disposition: attachment; filename=\"a\"", str "X-Injected: 1",
        str "X-Name: \"b\"", []] <:+:
      lines (injectedFilename.bytes sampleWorld).1.1 ∧
    ¬ str "X-Injected" <:+: (minimalMessage.bytes sampleWorld).1.1 := by
  refine ⟨fun m w v1 htok => ?_, by decide, by decide, by decide, by decide⟩
  rw [bytes_ok m w v1 htok]
  obtain ⟨rest, h⟩ := output_header m v1.String (attachmentOrder m w) (inlineOrder m w)
  rw [h]
  refine ⟨Spec.fromLine m ++ Spec.listLine (str "To: ") m.To ++ Spec.listLine (str "Cc: ") m.Cc,
    rest, ?_⟩
  have e : str "\nMIME-Version: 1.0\n" = str "\n" ++ str "MIME-Version: 1.0\n" := rfl
  simp only [Spec.headerBlock, e, List.append_assoc]

/-- The message `unaddressedMessage`, rejected by `Send` in `sampleWorld`. -/
theorem validation_first_witness :
    ((Send (str "relay:25") ⟨7⟩ unaddressedMessage sampleWorld).1 =
        some (.errorf "from is not set") ∨
      (Send (str "relay:25") ⟨7⟩ unaddressedMessage sampleWorld).1 =
        some (.errorf "zero receivers")) ∧
    ((Send (str "relay:25") ⟨7⟩ unaddressedMessage sampleWorld).2.1 = unaddressedMessage ∧
    (Send (str "relay:25") ⟨7⟩ unaddressedMessage sampleWorld).2.2 = sampleWorld ∧
    (Send (str "relay:25") ⟨7⟩ unaddressedMessage sampleWorld).2.2.uuidCalls =
      sampleWorld.uuidCalls ∧
    (Send (str "relay:25") ⟨7⟩ unaddressedMessage sampleWorld).2.1.Body =
      unaddressedMessage.Body ∧
    ∀ (sender : Address) (tos : List Address) (w2 : World) (v2 : UUID),
      w2.uuidResults w2.uuidCalls = .ok v2 →
      Spec.body { (Send (str "relay:25") ⟨7⟩ unaddressedMessage sampleWorld).2.1 with
          From := sender, To := tos } = Spec.body unaddressedMessage ∧
      ({ (Send (str "relay:25") ⟨7⟩ unaddressedMessage sampleWorld).2.1 with
          From := sender, To := tos }.bytes w2).1 =
        (Spec.output { unaddressedMessage with From := sender, To := tos } v2.String
          (attachmentOrder unaddressedMessage w2) (inlineOrder unaddressedMessage w2), none)) :=
  ⟨Or.inr (by decide),
    validation_first (str "relay:25") ⟨7⟩ unaddressedMessage sampleWorld (Or.inr (by decide))⟩

end Qmail
